import Mathlib

/-!
Verification of the zxtex pixel codec (zxtex.go, header/transparency-aware
implementation). Go values are embedded as follows: machine integers become
Nat (with explicit / 256 and % 256 where the source shifts or truncates),
strings become List Char, fallible functions return Option or Except.
The float64 distance arithmetic in nearestColor is exact on the reachable
domain (channels below 2 ^ 24, squared sums below 2 ^ 53), so it is embedded
as Nat arithmetic; the initial bestDist = math.MaxFloat64 is embedded as
`none` (no distance recorded yet), which the first loop iteration always
replaces, exactly as any finite distance replaces MaxFloat64.
-/

set_option maxHeartbeats 1000000

/-- RGBA color with 8-bit channels, as Go's color.RGBA. -/
structure RGBA8 where
  r : Nat
  g : Nat
  b : Nat
  a : Nat
deriving DecidableEq

/-- The ZX Spectrum palette of 16 colors (var ZXPalette in zxtex.go).
Index 8 intentionally duplicates index 0 (both black). -/
def ZXPalette : List RGBA8 :=
  [⟨0, 0, 0, 255⟩, ⟨0, 0, 215, 255⟩, ⟨215, 0, 0, 255⟩, ⟨215, 0, 215, 255⟩,
   ⟨0, 215, 0, 255⟩, ⟨0, 215, 215, 255⟩, ⟨215, 215, 0, 255⟩, ⟨215, 215, 215, 255⟩,
   ⟨0, 0, 0, 255⟩, ⟨0, 0, 255, 255⟩, ⟨255, 0, 0, 255⟩, ⟨255, 0, 255, 255⟩,
   ⟨0, 255, 0, 255⟩, ⟨0, 255, 255, 255⟩, ⟨255, 255, 0, 255⟩, ⟨255, 255, 255, 255⟩]

/-- Palette lookup; every index reaching ZXPalette[idx] in the source is below 16. -/
def palAt (i : Nat) : RGBA8 := ZXPalette.getD i ⟨0, 0, 0, 255⟩

/-- Squared Euclidean RGB distance between shifted channel values and a palette
entry (the dr*dr + dg*dg + db*db computation in nearestColor). -/
def dist2 (cr cg cb : Nat) (p : RGBA8) : Nat :=
  (((cr : Int) - p.r) ^ 2 + ((cg : Int) - p.g) ^ 2 + ((cb : Int) - p.b) ^ 2).toNat

/-- Distance of the shifted channels to palette entry i. -/
def palDist (cr cg cb i : Nat) : Nat := dist2 cr cg cb (palAt i)

/-- One iteration of nearestColor's loop. `none` is the initial
bestDist = math.MaxFloat64, which any computed distance beats. -/
def nStep (cr cg cb : Nat) (best : Nat × Option Nat) (p : Nat × RGBA8) : Nat × Option Nat :=
  let d := dist2 cr cg cb p.2
  match best.2 with
  | none => (p.1, some d)
  | some bd => if d < bd then (p.1, some d) else best

/-- nearestColor from zxtex.go: r, g, b are the 16-bit channels returned by
RGBA(); the source shifts each right by 8 and scans the palette keeping the
strictly smallest squared distance. -/
def nearestColor (r g b : Nat) : Nat :=
  (ZXPalette.enum.foldl (nStep (r / 256) (g / 256) (b / 256)) (0, none)).1

/-- unicode.Is(unicode.ASCII_Hex_Digit, r): the characters 0-9, A-F, a-f. -/
def isASCIIHexDigit (c : Char) : Bool :=
  (48 ≤ c.toNat && c.toNat ≤ 57) || (97 ≤ c.toNat && c.toNat ≤ 102)
    || (65 ≤ c.toNat && c.toNat ≤ 70)

/-- The character class kept by filterHexString: hex digits and the dot. -/
def isHexOrDot (c : Char) : Bool := isASCIIHexDigit c || c == '.'

/-- filterHexString from zxtex.go: removes every character that is not an
ASCII hex digit or the '.' placeholder. -/
def filterHexString (s : List Char) : List Char := s.filter isHexOrDot

/-- strconv.ParseUint(string(ch), 16, 8) on a single character: the value of
a hex digit (either case), or failure. -/
def hexVal (c : Char) : Option Nat :=
  if 48 ≤ c.toNat ∧ c.toNat ≤ 57 then some (c.toNat - 48)
  else if 97 ≤ c.toNat ∧ c.toNat ≤ 102 then some (c.toNat - 87)
  else if 65 ≤ c.toNat ∧ c.toNat ≤ 70 then some (c.toNat - 55)
  else none

/-- strings.ToUpper(strconv.FormatInt(int64 idx, 16)) for the palette indices
the source produces (idx < 16): one uppercase hex digit. -/
def hexUpper (n : Nat) : Char :=
  if n < 10 then Char.ofNat (48 + n) else Char.ofNat (55 + n)

/-- strconv.ParseUint(s, 16, 8) on a two-character slice of a web color. -/
def hexPair (c1 c2 : Char) : Option Nat :=
  match hexVal c1, hexVal c2 with
  | some v1, some v2 => some (16 * v1 + v2)
  | _, _ => none

/-- parseWebColor from zxtex.go: strips one leading '#', requires exactly six
hex digits, and returns the color with full alpha. (Go indexes bytes; a
successful parse consists of ASCII characters only, where byte and character
indexing agree.) -/
def parseWebColor (s : List Char) : Option RGBA8 :=
  let t := if s.head? = some '#' then s.tail else s
  match t with
  | [c1, c2, c3, c4, c5, c6] =>
    match hexPair c1 c2, hexPair c3 c4, hexPair c5 c6 with
    | some r, some g, some b => some ⟨r, g, b, 255⟩
    | _, _, _ => none
  | _ => none

/-- The per-run transparency configuration: the global variables
transpColorStr and transpIndex of zxtex.go (flag defaults: "" and -1). -/
structure TranspConfig where
  transpColorStr : List Char
  transpIndex : Int
deriving DecidableEq

/-- The transparent-color comparison block of shouldBeTransparent: active only
when a color string is configured and parses; compares the pixel truncated to
8 bits per channel (uint8(r >> 8)). -/
def colorOverrideHit (cfg : TranspConfig) (r g b : Nat) : Bool :=
  if cfg.transpColorStr.isEmpty then false
  else
    match parseWebColor cfg.transpColorStr with
    | none => false
    | some tcol =>
      decide ((r / 256) % 256 = tcol.r ∧ (g / 256) % 256 = tcol.g
        ∧ (b / 256) % 256 = tcol.b)

/-- shouldBeTransparent from zxtex.go, on the 16-bit channels from RGBA(). -/
def shouldBeTransparent (cfg : TranspConfig) (r g b a : Nat) : Bool :=
  if a = 0 then true
  else if colorOverrideHit cfg r g b then true
  else if 0 ≤ cfg.transpIndex ∧ (nearestColor r g b : Int) = cfg.transpIndex then true
  else false

/-- The named error kinds produced by the conversion functions. -/
inductive ZXError where
  | emptyInput
  | invalidDigit (c : Char)
  | configurationError
deriving DecidableEq

/-- The image produced by hexToImage: a width x height RGBA canvas, row-major.
image.NewRGBA zero-initializes every pixel to (0,0,0,0). -/
structure RGBAImage where
  width : Nat
  height : Nat
  pix : List RGBA8
deriving DecidableEq

/-- Width inference of hexToImage when width is 0: side length when the total
is a perfect square, else the whole stream as a single row. int(math.Sqrt)
agrees with Nat.sqrt here: on a perfect square math.Sqrt is exact, and
otherwise both land in the single-row branch because sq*sq = total is
impossible for any integer sq. -/
def inferWidth (total w0 : Nat) : Nat :=
  if w0 = 0 then
    if Nat.sqrt total * Nat.sqrt total = total then Nat.sqrt total else total
  else w0

/-- height := int(math.Ceil(float64(total) / float64(width))), exact for
width > 0 (the only reachable case), written with Nat arithmetic. -/
def gridHeight (total w : Nat) : Nat := (total + w - 1) / w

/-- The pixel-setting loop of hexToImage over the enumerated stream
(for i, ch := range hexData — every reachable stream is ASCII, where byte and
character positions agree). img.Set at (i % width, i / width) writes flat
position i = (i / width) * width + i % width; an out-of-range Set is a no-op,
as is List.set. -/
def hexLoop : List (Nat × Char) → List RGBA8 → Except ZXError (List RGBA8)
  | [], pix => .ok pix
  | (i, c) :: rest, pix =>
    if c = '.' then hexLoop rest (pix.set i ⟨0, 0, 0, 0⟩)
    else
      match hexVal c with
      | some v => hexLoop rest (pix.set i (palAt v))
      | none => .error (.invalidDigit c)

/-- hexToImage from zxtex.go. height = int(math.Ceil(total/width)) is written
(total + width - 1) / width, which is the same value for width > 0 (the only
reachable case: total > 0 makes the inferred width positive). -/
def hexToImage (s : List Char) (w0 : Nat) : Except ZXError RGBAImage :=
  if s.length = 0 then .error .emptyInput
  else
    match hexLoop s.enum
        (List.replicate
          (inferWidth s.length w0 * gridHeight s.length (inferWidth s.length w0))
          ⟨0, 0, 0, 0⟩) with
    | .ok pix =>
      .ok ⟨inferWidth s.length w0, gridHeight s.length (inferWidth s.length w0), pix⟩
    | .error e => .error e

/-- The value hexToImage writes for one character of the stream. -/
def decodePix (c : Char) : RGBA8 :=
  if c = '.' then ⟨0, 0, 0, 0⟩ else palAt ((hexVal c).getD 0)

/-- filterHexLine from zxtex.go: removes spaces and tabs, keeps everything
else (including the dot). -/
def filterHexLine (l : List Char) : List Char :=
  l.filter (fun c => !(c == ' ' || c == '\t'))

/-- bufio.Scanner with ScanLines: split at every newline; the text after the
final newline is a token only when non-empty. The per-line dropping of a
trailing carriage return is folded into trimTrailCR below, which the source
applies to every line anyway. -/
def splitLinesAux : List Char → List Char → List (List Char)
  | cur, [] => if cur.isEmpty then [] else [cur.reverse]
  | cur, c :: rest =>
    if c = '\n' then cur.reverse :: splitLinesAux [] rest
    else splitLinesAux (c :: cur) rest

def splitLines (s : List Char) : List (List Char) := splitLinesAux [] s

/-- strings.TrimRight(line, "\r") composed with ScanLines' own dropCR: all
trailing carriage returns removed. -/
def trimTrailCR (l : List Char) : List Char :=
  (l.reverse.dropWhile (fun c => c == '\r')).reverse

/-- strings.HasPrefix(line, "#"). -/
def isHeaderLine (l : List Char) : Bool :=
  match l with
  | c :: _ => c == '#'
  | [] => false

/-- One character of strings.ToLower, as far as the comparison against
"# file:" can observe it. Go applies the Unicode simple lowercase mapping;
isFileHeader only asks whether each lowered character equals one of
'#', ' ', 'f', 'i', 'l', 'e', ':'. The code points whose lowercase form is
one of those are exactly themselves, the ASCII capitals F, I, L, E, and the
dotted capital I (U+0130), which Unicode lowers to plain 'i'; the only other
code point with a non-identity ASCII lowercase form is the Kelvin sign
(U+212A, lowers to 'k'), which never matches the prefix. So lowering A-Z and
U+0130 makes the predicate agree with the program on every line, even though
other letters (lowered to non-ASCII, hence never equal to a prefix
character under either mapping) are left unchanged here. -/
def lowerChar (c : Char) : Char :=
  if 65 ≤ c.toNat ∧ c.toNat ≤ 90 then Char.ofNat (c.toNat + 32)
  else if c.toNat = 304 then 'i'
  else c

/-- strings.HasPrefix(strings.ToLower(line), "# file:"). -/
def isFileHeader (l : List Char) : Bool :=
  List.isPrefixOf ['#', ' ', 'f', 'i', 'l', 'e', ':'] (l.map lowerChar)

/-- strings.SplitN(line, ":", 2)[1]: everything after the first colon (the
callers only use it on lines that contain a colon). -/
def afterColon (l : List Char) : List Char :=
  (l.dropWhile (fun c => !(c == ':'))).tail

/-- unicode.IsSpace: the Unicode White_Space property, enumerated. -/
def goIsSpace (c : Char) : Bool :=
  decide ((9 ≤ c.toNat ∧ c.toNat ≤ 13) ∨ c.toNat = 32 ∨ c.toNat = 133 ∨
    c.toNat = 160 ∨ c.toNat = 5760 ∨ (8192 ≤ c.toNat ∧ c.toNat ≤ 8202) ∨
    c.toNat = 8232 ∨ c.toNat = 8233 ∨ c.toNat = 8239 ∨ c.toNat = 8287 ∨
    c.toNat = 12288)

/-- strings.TrimSpace. -/
def trimSpace (l : List Char) : List Char :=
  ((l.dropWhile goIsSpace).reverse.dropWhile goIsSpace).reverse

/-- Everything before the first '#' of a non-header line (inline-comment
stripping: line = line[:strings.Index(line, "#")]). -/
def stripInline (l : List Char) : List Char :=
  l.takeWhile (fun c => !(c == '#'))

/-- The line loop of readHexFromTextFile: accumulates processed content lines,
the width of the first of them, and the (last) recovered "# file:" value. -/
def readLoop : List (List Char) → List (List Char) → Nat → List Char →
    List (List Char) × Nat × List Char
  | [], acc, width, ofn => (acc, width, ofn)
  | line :: rest, acc, width, ofn =>
    if isHeaderLine (trimTrailCR line) then
      if isFileHeader (trimTrailCR line) then
        readLoop rest acc width (trimSpace (afterColon (trimTrailCR line)))
      else readLoop rest acc width ofn
    else
      if (filterHexLine (stripInline (trimTrailCR line))).length = 0 then
        readLoop rest acc width ofn
      else
        if width = 0 then
          readLoop rest (acc ++ [filterHexLine (stripInline (trimTrailCR line))])
            (filterHexLine (stripInline (trimTrailCR line))).length ofn
        else
          readLoop rest (acc ++ [filterHexLine (stripInline (trimTrailCR line))]) width ofn

/-- readHexFromTextFile on an already-split line list: joined content lines,
filtered to the hex/dot alphabet, with declared width and recovered name. -/
def readHexFromLines (lines : List (List Char)) : List Char × Nat × List Char :=
  (filterHexString (readLoop lines [] 0 []).1.flatten,
   (readLoop lines [] 0 []).2.1, (readLoop lines [] 0 []).2.2)

/-- readHexFromTextFile from zxtex.go, minus the file read: the file bytes are
the given text. -/
def readHexFromText (text : List Char) : List Char × Nat × List Char :=
  readHexFromLines (splitLines text)

/-- The processed content one line contributes to the stream: nothing for a
header line; otherwise the line with the inline comment stripped and spaces
and tabs removed, dropped when empty. -/
def contentPiece (line : List Char) : Option (List Char) :=
  if isHeaderLine (trimTrailCR line) then none
  else
    if (filterHexLine (stripInline (trimTrailCR line))).length = 0 then none
    else some (filterHexLine (stripInline (trimTrailCR line)))

/-- The recovered-filename value one line contributes: the trimmed remainder
after the first colon of a "# file:" header line, nothing otherwise. -/
def filePiece (line : List Char) : Option (List Char) :=
  if isHeaderLine (trimTrailCR line) then
    if isFileHeader (trimTrailCR line) then
      some (trimSpace (afterColon (trimTrailCR line)))
    else none
  else none

/-- A cell of the quantized pixel grid (the spec's PixelGrid): transparent, or
a palette index. -/
inductive Cell where
  | transparent
  | palette (i : Nat)
deriving DecidableEq

/-- A well-formed cell carries a palette index below 16 (the only cells the
encoder can produce, since nearestColor stays below 16). -/
def cellValidB : Cell → Bool
  | .transparent => true
  | .palette i => decide (i < 16)

/-- The character a cell is written as in both encoders: '.' for transparency,
otherwise the uppercase hex digit of the index. -/
def cellChar : Cell → Char
  | .transparent => '.'
  | .palette i => hexUpper i

/-- The cell one stream character decodes to in hexToImage's loop: '.' is the
transparent cell, a hex digit the palette index of its value. -/
def decodeCellChar (c : Char) : Cell :=
  if c = '.' then .transparent else .palette ((hexVal c).getD 0)

/-- The spec's PixelGrid: width, height and row-major cells. -/
structure CellGrid where
  width : Nat
  height : Nat
  cells : List Cell
deriving DecidableEq

/-- hexToImage's per-character loop at cell granularity. -/
def cellLoop : List (Nat × Char) → List Cell → Except ZXError (List Cell)
  | [], cs => .ok cs
  | (i, c) :: rest, cs =>
    if c = '.' then cellLoop rest (cs.set i .transparent)
    else
      match hexVal c with
      | some v => cellLoop rest (cs.set i (.palette v))
      | none => .error (.invalidDigit c)

/-- charStreamToGrid: hexToImage at cell granularity. The canvas starts all
transparent because image.NewRGBA zero-initializes every pixel; rendering the
result through cellColor gives exactly hexToImage
(hexToImage_eq_render_charStreamToGrid below). -/
def charStreamToGrid (s : List Char) (w0 : Nat) : Except ZXError CellGrid :=
  if s.length = 0 then .error .emptyInput
  else
    match cellLoop s.enum
        (List.replicate
          (inferWidth s.length w0 * gridHeight s.length (inferWidth s.length w0))
          .transparent) with
    | .ok cs =>
      .ok ⟨inferWidth s.length w0, gridHeight s.length (inferWidth s.length w0), cs⟩
    | .error e => .error e

/-- The color a cell renders to in hexToImage: RGBA(0,0,0,0) for transparency,
the palette color for an index. -/
def cellColor : Cell → RGBA8
  | .transparent => ⟨0, 0, 0, 0⟩
  | .palette i => palAt i

/-- A decoded pixel: the four 16-bit channel values RGBA() yields. -/
structure Pixel16 where
  r : Nat
  g : Nat
  b : Nat
  a : Nat
deriving DecidableEq

/-- The character imageToHex and imageToRawHex emit for one pixel. -/
def pixelChar (cfg : TranspConfig) (p : Pixel16) : Char :=
  if shouldBeTransparent cfg p.r p.g p.b p.a then '.'
  else hexUpper (nearestColor p.r p.g p.b)

/-- The quantized cell of one pixel (pixelChar is cellChar of it). -/
def quantizeCell (cfg : TranspConfig) (p : Pixel16) : Cell :=
  if shouldBeTransparent cfg p.r p.g p.b p.a then .transparent
  else .palette (nearestColor p.r p.g p.b)

/-- fmt.Sprintf("%d", n) for the nonnegative widths and heights the source
prints (fuel-based so it computes by reduction). -/
def natToDecAux : Nat → Nat → List Char
  | 0, _ => []
  | fuel + 1, n =>
    if n < 10 then [Char.ofNat (48 + n)]
    else natToDecAux fuel (n / 10) ++ [Char.ofNat (48 + n % 10)]

def natToDec (n : Nat) : List Char := natToDecAux (n + 1) n

/-- The header block of imageToHex:
"# file: %s\n# width: %d\n# height: %d\n# generator: zxtex\n". -/
def headerChars (fname : List Char) (w h : Nat) : List Char :=
  (['#', ' ', 'f', 'i', 'l', 'e', ':', ' '] ++ fname) ++ '\n' ::
    ((['#', ' ', 'w', 'i', 'd', 't', 'h', ':', ' '] ++ natToDec w) ++ '\n' ::
      ((['#', ' ', 'h', 'e', 'i', 'g', 'h', 't', ':', ' '] ++ natToDec h) ++ '\n' ::
        (['#', ' ', 'g', 'e', 'n', 'e', 'r', 'a', 't', 'o', 'r', ':', ' ',
            'z', 'x', 't', 'e', 'x'] ++ '\n' :: [])))

/-- The row-mode text imageToHex produces for a quantized grid: the header
block, then one line per row of cells. -/
def encodeRows (fname : List Char) (w : Nat) (rows : List (List Cell)) : List Char :=
  headerChars fname w rows.length ++
    (rows.map (fun row => row.map cellChar ++ ['\n'])).flatten

/-- The grid-body rows of imageToHex on the decoded canvas: pix x y is the
pixel at column x of row y of the w x h rectangle draw.Draw filled. -/
def imageBodyRows (cfg : TranspConfig) (w h : Nat)
    (pix : Nat → Nat → Pixel16) : List (List Char) :=
  (List.range h).map (fun y => (List.range w).map (fun x => pixelChar cfg (pix x y)))

/-- imageToHex from zxtex.go after the external decode and draw steps. -/
def imageToHexChars (cfg : TranspConfig) (fname : List Char) (w h : Nat)
    (pix : Nat → Nat → Pixel16) : List Char :=
  headerChars fname w h ++
    ((imageBodyRows cfg w h pix).map (fun row => row ++ ['\n'])).flatten

/-- imageToRawHex from zxtex.go after the external decode and draw steps:
every row concatenated, one trailing newline for the whole output. -/
def imageToRawHexChars (cfg : TranspConfig) (w h : Nat)
    (pix : Nat → Nat → Pixel16) : List Char :=
  (imageBodyRows cfg w h pix).flatten ++ ['\n']

/-- The "0x"/"0X" prefix stripping of direct-string mode
(strings.HasPrefix then hexStr[2:]). -/
def strip0x : List Char → List Char
  | '0' :: 'x' :: rest => rest
  | '0' :: 'X' :: rest => rest
  | l => l

/-- The direct-string branch of main: width is mandatory (else the program
exits with the configuration error before touching the input); otherwise the
input is trimmed, 0x-stripped, hex-filtered and decoded. -/
def directStringMode (input : List Char) (widthFlag : Nat) : Except ZXError RGBAImage :=
  if widthFlag = 0 then .error .configurationError
  else hexToImage (filterHexString (strip0x (trimSpace input))) widthFlag

theorem nStep_foldl_spec (cr cg cb : Nat) (l : List (Nat × RGBA8)) :
    ∀ (b bd : Nat),
      b < 16 →
      bd = palDist cr cg cb b →
      (∀ p ∈ l, p.1 < 16 ∧ p.2 = palAt p.1) →
      l.Pairwise (fun p q => p.1 < q.1) →
      (∀ p ∈ l, b < p.1) →
      (∀ j, j < 16 → j ∉ l.map Prod.fst → bd ≤ palDist cr cg cb j) →
      (∀ j, j < b → bd < palDist cr cg cb j) →
      (l.foldl (nStep cr cg cb) (b, some bd)).1 < 16 ∧
      (l.foldl (nStep cr cg cb) (b, some bd)).2
        = some (palDist cr cg cb (l.foldl (nStep cr cg cb) (b, some bd)).1) ∧
      (∀ j, j < 16 →
        palDist cr cg cb (l.foldl (nStep cr cg cb) (b, some bd)).1 ≤ palDist cr cg cb j) ∧
      (∀ j, j < (l.foldl (nStep cr cg cb) (b, some bd)).1 →
        palDist cr cg cb (l.foldl (nStep cr cg cb) (b, some bd)).1 < palDist cr cg cb j) := by
  induction l with
  | nil =>
    intro b bd hb16 hbd _ _ _ hproc hstrict
    simp only [List.foldl_nil]
    refine ⟨hb16, by rw [hbd], ?_, ?_⟩
    · intro j hj
      have := hproc j hj (by simp)
      omega
    · intro j hj
      have := hstrict j hj
      omega
  | cons p rest ih =>
    intro b bd hb16 hbd hmem hpw hafter hproc hstrict
    have hp : p.1 < 16 ∧ p.2 = palAt p.1 := hmem p (by simp)
    have hpwc := List.pairwise_cons.mp hpw
    have hd : dist2 cr cg cb p.2 = palDist cr cg cb p.1 := by
      rw [hp.2]; rfl
    simp only [List.foldl_cons]
    by_cases hcmp : dist2 cr cg cb p.2 < bd
    · have hstep : nStep cr cg cb (b, some bd) p = (p.1, some (dist2 cr cg cb p.2)) := by
        simp [nStep, hcmp]
      rw [hstep]
      apply ih p.1 (dist2 cr cg cb p.2) hp.1 hd
      · intro q hq; exact hmem q (by simp [hq])
      · exact hpwc.2
      · intro q hq; exact hpwc.1 q hq
      · intro j hj16 hjnot
        by_cases hje : j = p.1
        · subst hje; omega
        · have : j ∉ (p :: rest).map Prod.fst := by
            simp only [List.map_cons, List.mem_cons]
            push_neg
            exact ⟨hje, by simpa using hjnot⟩
          have := hproc j hj16 this
          omega
      · intro j hj
        have hj16 : j < 16 := by omega
        have hjne : j ≠ p.1 := by omega
        have hjrest : j ∉ rest.map Prod.fst := by
          intro hmem'
          rcases List.mem_map.mp hmem' with ⟨q, hq, hqj⟩
          have := hpwc.1 q hq
          omega
        have : j ∉ (p :: rest).map Prod.fst := by
          simp only [List.map_cons, List.mem_cons]
          push_neg
          exact ⟨hjne, by simpa using hjrest⟩
        have := hproc j hj16 this
        omega
    · have hstep : nStep cr cg cb (b, some bd) p = (b, some bd) := by
        simp [nStep, hcmp]
      rw [hstep]
      apply ih b bd hb16 hbd
      · intro q hq; exact hmem q (by simp [hq])
      · exact hpwc.2
      · intro q hq; exact hafter q (by simp [hq])
      · intro j hj16 hjnot
        by_cases hje : j = p.1
        · subst hje; omega
        · have : j ∉ (p :: rest).map Prod.fst := by
            simp only [List.map_cons, List.mem_cons]
            push_neg
            exact ⟨hje, by simpa using hjnot⟩
          exact hproc j hj16 this
      · exact hstrict

theorem nearestColor_spec (r g b : Nat) :
    nearestColor r g b < 16 ∧
    (∀ j, j < 16 →
      palDist (r / 256) (g / 256) (b / 256) (nearestColor r g b)
        ≤ palDist (r / 256) (g / 256) (b / 256) j) ∧
    (∀ j, j < nearestColor r g b →
      palDist (r / 256) (g / 256) (b / 256) (nearestColor r g b)
        < palDist (r / 256) (g / 256) (b / 256) j) := by
  have henum : ZXPalette.enum
      = (0, palAt 0) :: [(1, palAt 1), (2, palAt 2), (3, palAt 3), (4, palAt 4),
         (5, palAt 5), (6, palAt 6), (7, palAt 7), (8, palAt 8), (9, palAt 9),
         (10, palAt 10), (11, palAt 11), (12, palAt 12), (13, palAt 13),
         (14, palAt 14), (15, palAt 15)] := by rfl
  have hspec := nStep_foldl_spec (r / 256) (g / 256) (b / 256)
      [(1, palAt 1), (2, palAt 2), (3, palAt 3), (4, palAt 4),
       (5, palAt 5), (6, palAt 6), (7, palAt 7), (8, palAt 8), (9, palAt 9),
       (10, palAt 10), (11, palAt 11), (12, palAt 12), (13, palAt 13),
       (14, palAt 14), (15, palAt 15)]
      0 (palDist (r / 256) (g / 256) (b / 256) 0)
      (by omega) rfl (by decide)
      (by decide) (by decide)
      (by
        intro j hj16 hjnot
        simp only [List.map_cons, List.map_nil, List.mem_cons, List.not_mem_nil] at hjnot
        push_neg at hjnot
        have hj0 : j = 0 := by omega
        subst hj0
        exact le_refl _)
      (by omega)
  have hunfold : nearestColor r g b
      = ([(1, palAt 1), (2, palAt 2), (3, palAt 3), (4, palAt 4),
          (5, palAt 5), (6, palAt 6), (7, palAt 7), (8, palAt 8), (9, palAt 9),
          (10, palAt 10), (11, palAt 11), (12, palAt 12), (13, palAt 13),
          (14, palAt 14), (15, palAt 15)].foldl
            (nStep (r / 256) (g / 256) (b / 256))
            (0, some (palDist (r / 256) (g / 256) (b / 256) 0))).1 := by
    rfl
  rw [hunfold]
  exact ⟨hspec.1, hspec.2.2.1, hspec.2.2.2⟩

theorem nearestColor_ne_eight (r g b : Nat) : nearestColor r g b ≠ 8 := by
  intro h8
  have hspec := nearestColor_spec r g b
  have hstrict := hspec.2.2 0 (by omega)
  have heq : palDist (r / 256) (g / 256) (b / 256) 8
      = palDist (r / 256) (g / 256) (b / 256) 0 := by
    have : palAt 8 = palAt 0 := by rfl
    unfold palDist
    rw [this]
  rw [h8] at hstrict
  omega

theorem colorOverrideHit_iff (cfg : TranspConfig) (r g b : Nat) :
    colorOverrideHit cfg r g b = true ↔
      ∃ tcol, parseWebColor cfg.transpColorStr = some tcol ∧
        (r / 256) % 256 = tcol.r ∧ (g / 256) % 256 = tcol.g
          ∧ (b / 256) % 256 = tcol.b := by
  unfold colorOverrideHit
  by_cases hemp : cfg.transpColorStr.isEmpty = true
  · have hnil : cfg.transpColorStr = [] := by
      cases h : cfg.transpColorStr with
      | nil => rfl
      | cons x xs => rw [h] at hemp; simp [List.isEmpty] at hemp
    have hnone : parseWebColor cfg.transpColorStr = none := by rw [hnil]; rfl
    simp [hemp, hnone]
  · simp only [hemp, Bool.false_eq_true, if_false]
    cases hpc : parseWebColor cfg.transpColorStr with
    | none => simp
    | some tcol => simp

/-- C4: shouldBeTransparent returns true exactly when the alpha channel is
zero, or a configured transparency color parses as a valid web color and
equals the pixel's 8-bit-truncated RGB, or a non-negative transparency palette
index equals nearestColor of the pixel. A malformed color string makes the
color override inactive (parseWebColor returns none), leaving the other two
conditions in force. -/
theorem claim_C4_shouldBeTransparent (cfg : TranspConfig) (r g b a : Nat) :
    shouldBeTransparent cfg r g b a = true ↔
      (a = 0 ∨
       (∃ tcol, parseWebColor cfg.transpColorStr = some tcol ∧
          (r / 256) % 256 = tcol.r ∧ (g / 256) % 256 = tcol.g
            ∧ (b / 256) % 256 = tcol.b) ∨
       (0 ≤ cfg.transpIndex ∧ (nearestColor r g b : Int) = cfg.transpIndex)) := by
  unfold shouldBeTransparent
  by_cases ha : a = 0
  · simp [ha]
  · simp only [ha, if_false]
    constructor
    · intro h
      by_cases hc : colorOverrideHit cfg r g b = true
      · exact Or.inr (Or.inl ((colorOverrideHit_iff cfg r g b).mp hc))
      · refine Or.inr (Or.inr ?_)
        simp only [hc, Bool.false_eq_true, if_false] at h
        by_cases hp : 0 ≤ cfg.transpIndex ∧ (nearestColor r g b : Int) = cfg.transpIndex
        · exact hp
        · rw [if_neg hp] at h; exact absurd h (by simp)
    · intro h
      rcases h with h | h | h
      · exact h.elim
      · rw [(colorOverrideHit_iff cfg r g b).mpr h]; rfl
      · by_cases hc : colorOverrideHit cfg r g b = true
        · simp [hc]
        · simp only [hc, Bool.false_eq_true, if_false]
          rw [if_pos h]

/-- Witness for C4: an alpha-zero pixel with the default configuration is
transparent. -/
theorem claim_C4_witness : shouldBeTransparent ⟨[], -1⟩ 1 2 3 0 = true :=
  (claim_C4_shouldBeTransparent ⟨[], -1⟩ 1 2 3 0).mpr (Or.inl rfl)

/-- C3: nearestColor returns an index within [0,15] of a palette entry at
minimal squared Euclidean RGB distance (alpha ignored, 16-bit channels
truncated to their high byte by the right shift); every index before the
returned one is strictly farther (first-occurrence tie-breaking), and the
duplicate entry 8 is never returned, so a pixel equidistant from entries 0
and 8 resolves to index 0. -/
theorem claim_C3_nearestColor (r g b : Nat) :
    nearestColor r g b < 16 ∧
    (∀ j, j < 16 →
      palDist (r / 256) (g / 256) (b / 256) (nearestColor r g b)
        ≤ palDist (r / 256) (g / 256) (b / 256) j) ∧
    (∀ j, j < nearestColor r g b →
      palDist (r / 256) (g / 256) (b / 256) (nearestColor r g b)
        < palDist (r / 256) (g / 256) (b / 256) j) ∧
    ((nearestColor r g b == 8) = false) := by
  have h := nearestColor_spec r g b
  exact ⟨h.1, h.2.1, h.2.2, beq_eq_false_iff_ne.mpr (nearestColor_ne_eight r g b)⟩

/-- Witness for C3 at a concrete pixel: black is at least as close to the
returned entry as to palette entry 5. -/
theorem claim_C3_witness :
    palDist (300 / 256) (0 / 256) (0 / 256) (nearestColor 300 0 0)
      ≤ palDist (300 / 256) (0 / 256) (0 / 256) 5 :=
  (claim_C3_nearestColor 300 0 0).2.1 5 (by omega)

theorem getD_set_eq {α : Type} :
    ∀ (l : List α) (i : Nat) (v d : α), i < l.length → (l.set i v).getD i d = v := by
  intro l
  induction l with
  | nil => intro i v d h; simp at h
  | cons x xs ih =>
    intro i v d h
    cases i with
    | zero => rfl
    | succ j =>
      simp only [List.set_cons_succ, List.getD_cons_succ]
      exact ih j v d (by simpa using h)

theorem getD_set_ne {α : Type} :
    ∀ (l : List α) (i j : Nat) (v d : α), i ≠ j → (l.set i v).getD j d = l.getD j d := by
  intro l
  induction l with
  | nil => intro i j v d _; simp [List.set]
  | cons x xs ih =>
    intro i j v d hne
    cases i with
    | zero =>
      cases j with
      | zero => exact absurd rfl hne
      | succ j' => rfl
    | succ i' =>
      cases j with
      | zero => rfl
      | succ j' =>
        simp only [List.set_cons_succ, List.getD_cons_succ]
        exact ih i' j' v d (by omega)

theorem getD_replicate {α : Type} :
    ∀ (n i : Nat) (v d : α), i < n → (List.replicate n v).getD i d = v := by
  intro n
  induction n with
  | zero => intro i v d h; omega
  | succ m ih =>
    intro i v d h
    cases i with
    | zero => rfl
    | succ j =>
      simp only [List.replicate_succ, List.getD_cons_succ]
      exact ih j v d (by omega)

theorem mem_enumFrom_bounds {α : Type} :
    ∀ (s : List α) (k : Nat) (p : Nat × α),
      p ∈ List.enumFrom k s → k ≤ p.1 ∧ p.1 < k + s.length := by
  intro s
  induction s with
  | nil => intro k p hp; simp [List.enumFrom] at hp
  | cons x xs ih =>
    intro k p hp
    simp only [List.enumFrom, List.mem_cons] at hp
    rcases hp with hp | hp
    · subst hp; simp
    · have := ih (k + 1) p hp
      constructor <;> [omega; (simp only [List.length_cons]; omega)]

theorem mem_enumFrom_snd {α : Type} :
    ∀ (s : List α) (k : Nat) (p : Nat × α), p ∈ List.enumFrom k s → p.2 ∈ s := by
  intro s
  induction s with
  | nil => intro k p hp; simp [List.enumFrom] at hp
  | cons x xs ih =>
    intro k p hp
    simp only [List.enumFrom, List.mem_cons] at hp
    rcases hp with hp | hp
    · subst hp; simp
    · exact List.mem_cons_of_mem x (ih (k + 1) p hp)

theorem enumFrom_pairwise {α : Type} :
    ∀ (s : List α) (k : Nat),
      (List.enumFrom k s).Pairwise (fun p q => p.1 < q.1) := by
  intro s
  induction s with
  | nil => intro k; simp [List.enumFrom]
  | cons x xs ih =>
    intro k
    simp only [List.enumFrom]
    refine List.pairwise_cons.mpr ⟨?_, ih (k + 1)⟩
    intro q hq
    have := mem_enumFrom_bounds xs (k + 1) q hq
    simp only
    omega

theorem mem_enumFrom_getD {α : Type} :
    ∀ (s : List α) (k i : Nat) (d : α),
      i < s.length → (k + i, s.getD i d) ∈ List.enumFrom k s := by
  intro s
  induction s with
  | nil => intro k i d h; simp at h
  | cons x xs ih =>
    intro k i d h
    cases i with
    | zero => simp [List.enumFrom]
    | succ j =>
      simp only [List.enumFrom, List.mem_cons, List.getD_cons_succ]
      right
      have := ih (k + 1) j d (by simpa using h)
      have harith : k + 1 + j = k + (j + 1) := by omega
      rwa [harith] at this

theorem hexLoop_ne_emptyInput :
    ∀ (l : List (Nat × Char)) (pix : List RGBA8),
      hexLoop l pix ≠ .error .emptyInput := by
  intro l
  induction l with
  | nil => intro pix h; exact Except.noConfusion h
  | cons p rest ih =>
    intro pix h
    rw [hexLoop] at h
    by_cases hc : p.2 = '.'
    · rw [if_pos hc] at h; exact ih _ h
    · rw [if_neg hc] at h
      cases hv : hexVal p.2 with
      | some v => rw [hv] at h; exact ih _ h
      | none =>
        rw [hv] at h
        exact ZXError.noConfusion (Except.error.inj h)

theorem hexLoop_length :
    ∀ (l : List (Nat × Char)) (pix pix' : List RGBA8),
      hexLoop l pix = .ok pix' → pix'.length = pix.length := by
  intro l
  induction l with
  | nil => intro pix pix' h; cases h; rfl
  | cons p rest ih =>
    intro pix pix' h
    rw [hexLoop] at h
    by_cases hc : p.2 = '.'
    · rw [if_pos hc] at h
      have := ih _ _ h
      simpa using this
    · rw [if_neg hc] at h
      cases hv : hexVal p.2 with
      | some v =>
        rw [hv] at h
        have := ih _ _ h
        simpa using this
      | none => rw [hv] at h; exact Except.noConfusion h

theorem hexLoop_untouched :
    ∀ (l : List (Nat × Char)) (pix pix' : List RGBA8) (j : Nat) (d : RGBA8),
      hexLoop l pix = .ok pix' → (∀ p ∈ l, p.1 ≠ j) →
      pix'.getD j d = pix.getD j d := by
  intro l
  induction l with
  | nil => intro pix pix' j d h _; cases h; rfl
  | cons p rest ih =>
    intro pix pix' j d h hnot
    have hpj : p.1 ≠ j := hnot p (by simp)
    rw [hexLoop] at h
    by_cases hc : p.2 = '.'
    · rw [if_pos hc] at h
      rw [ih _ _ j d h (fun q hq => hnot q (by simp [hq]))]
      exact getD_set_ne pix p.1 j _ d hpj
    · rw [if_neg hc] at h
      cases hv : hexVal p.2 with
      | some v =>
        rw [hv] at h
        rw [ih _ _ j d h (fun q hq => hnot q (by simp [hq]))]
        exact getD_set_ne pix p.1 j _ d hpj
      | none => rw [hv] at h; exact Except.noConfusion h

theorem hexLoop_getD :
    ∀ (l : List (Nat × Char)) (pix pix' : List RGBA8) (i : Nat) (c : Char) (d : RGBA8),
      hexLoop l pix = .ok pix' → l.Pairwise (fun p q => p.1 < q.1) →
      (i, c) ∈ l → i < pix.length →
      pix'.getD i d = decodePix c := by
  intro l
  induction l with
  | nil => intro pix pix' i c d _ _ hmem _; simp at hmem
  | cons p rest ih =>
    intro pix pix' i c d h hpw hmem hlen
    have hpwc := List.pairwise_cons.mp hpw
    rcases List.mem_cons.mp hmem with hhead | htail
    · have hpi : p = (i, c) := hhead.symm
      subst hpi
      rw [hexLoop] at h
      have hrest_ne : ∀ q ∈ rest, q.1 ≠ i := by
        intro q hq
        have := hpwc.1 q hq
        omega
      by_cases hc : c = '.'
      · rw [if_pos hc] at h
        rw [hexLoop_untouched rest _ pix' i d h hrest_ne]
        rw [getD_set_eq pix i _ d hlen]
        rw [decodePix, if_pos hc]
      · rw [if_neg hc] at h
        cases hv : hexVal c with
        | some v =>
          rw [hv] at h
          rw [hexLoop_untouched rest _ pix' i d h hrest_ne]
          rw [getD_set_eq pix i _ d hlen]
          rw [decodePix, if_neg hc, hv]
          rfl
        | none => rw [hv] at h; exact Except.noConfusion h
    · rw [hexLoop] at h
      by_cases hc : p.2 = '.'
      · rw [if_pos hc] at h
        exact ih _ pix' i c d h hpwc.2 htail (by simpa using hlen)
      · rw [if_neg hc] at h
        cases hv : hexVal p.2 with
        | some v =>
          rw [hv] at h
          exact ih _ pix' i c d h hpwc.2 htail (by simpa using hlen)
        | none => rw [hv] at h; exact Except.noConfusion h

theorem ceil_div_bounds (n w : Nat) (hw : 0 < w) :
    n ≤ w * ((n + w - 1) / w) ∧ (0 < n → w * ((n + w - 1) / w - 1) < n) := by
  have hdm := Nat.div_add_mod (n + w - 1) w
  have hml := Nat.mod_lt (n + w - 1) hw
  refine ⟨by omega, ?_⟩
  intro hn
  generalize hqdef : (n + w - 1) / w = q at hdm ⊢
  rcases (by omega : q = 0 ∨ (q - 1) + 1 = q) with h0 | h1
  · rw [h0]; simpa using hn
  · have hlin : w * ((q - 1) + 1) = w * q := by rw [h1]
    rw [Nat.mul_add, Nat.mul_one] at hlin
    omega

theorem sqrt_eval (n k : Nat) (h1 : k * k ≤ n) (h2 : n < (k + 1) * (k + 1)) :
    Nat.sqrt n = k := by
  have ha : k ≤ Nat.sqrt n := Nat.le_sqrt.mpr h1
  have hb : Nat.sqrt n < k + 1 := Nat.sqrt_lt.mpr h2
  omega

theorem inferWidth_pos (total w0 : Nat) (h : 0 < total) : 0 < inferWidth total w0 := by
  unfold inferWidth
  by_cases h0 : w0 = 0
  · rw [if_pos h0]
    by_cases hsq : Nat.sqrt total * Nat.sqrt total = total
    · rw [if_pos hsq]
      by_contra hz
      have : Nat.sqrt total = 0 := by omega
      rw [this] at hsq
      omega
    · rw [if_neg hsq]; exact h
  · rw [if_neg h0]; omega

theorem hexToImage_ok_elim (s : List Char) (w0 : Nat) (img : RGBAImage)
    (h : hexToImage s w0 = .ok img) :
    s.length ≠ 0 ∧
    img.width = inferWidth s.length w0 ∧
    img.height = gridHeight s.length img.width ∧
    hexLoop s.enum (List.replicate (img.width * img.height) ⟨0, 0, 0, 0⟩)
      = .ok img.pix := by
  by_cases hlen : s.length = 0
  · rw [hexToImage, if_pos hlen] at h; exact Except.noConfusion h
  · rw [hexToImage, if_neg hlen] at h
    cases hloop : hexLoop s.enum
        (List.replicate
          (inferWidth s.length w0 * gridHeight s.length (inferWidth s.length w0))
          ⟨0, 0, 0, 0⟩) with
    | ok pix =>
      rw [hloop] at h
      have himg : (⟨inferWidth s.length w0,
          gridHeight s.length (inferWidth s.length w0), pix⟩ : RGBAImage) = img :=
        Except.ok.inj h
      refine ⟨hlen, ?_, ?_, ?_⟩
      · rw [← himg]
      · rw [← himg]
      · rw [← himg]; exact hloop
    | error e => rw [hloop] at h; exact Except.noConfusion h

/-- C2: dimension inference of hexToImage: with widthHint 0 a perfect-square
stream yields width = height = sqrt of the length and any other stream one
single row (width = length, height = 1); with a nonzero width the height is
ceil(length / width) --- the rectangle covers the stream and the previous row
ends before it, so a final partial row is permitted; concretely 9 characters
infer 3 x 3 and 10 characters infer 10 x 1. -/
theorem claim_C2_dimension_inference (s : List Char) (hs : s ≠ []) :
    (∀ img, hexToImage s 0 = .ok img →
      (∀ k, k * k = s.length → img.width = k ∧ img.height = k) ∧
      ((∀ k, k * k ≠ s.length) → img.width = s.length ∧ img.height = 1)) ∧
    (∀ w img, w ≠ 0 → hexToImage s w = .ok img →
      img.width = w ∧ img.height = (s.length + w - 1) / w ∧
      s.length ≤ w * img.height ∧ w * (img.height - 1) < s.length) ∧
    (hexToImage (List.replicate 9 '0') 0).toOption.map (fun i => (i.width, i.height))
      = some (3, 3) ∧
    (hexToImage (List.replicate 10 '0') 0).toOption.map (fun i => (i.width, i.height))
      = some (10, 1) := by
  have hn : s.length ≠ 0 := by
    intro h0
    exact hs (List.eq_nil_of_length_eq_zero h0)
  have hiw9 : inferWidth (List.replicate 9 '0' : List Char).length 0 = 3 := by
    rw [show (List.replicate 9 '0' : List Char).length = 9 from rfl]
    rw [inferWidth, if_pos rfl, sqrt_eval 9 3 (by omega) (by omega)]
    decide
  have hiw10 : inferWidth (List.replicate 10 '0' : List Char).length 0 = 10 := by
    rw [show (List.replicate 10 '0' : List Char).length = 10 from rfl]
    rw [inferWidth, if_pos rfl, sqrt_eval 10 3 (by omega) (by omega)]
    rw [if_neg (by omega)]
  have h9 : hexToImage (List.replicate 9 '0') 0
      = .ok ⟨3, 3, List.replicate 9 (palAt 0)⟩ := by
    rw [hexToImage, if_neg (by decide), hiw9]
    rfl
  have h10 : hexToImage (List.replicate 10 '0') 0
      = .ok ⟨10, 1, List.replicate 10 (palAt 0)⟩ := by
    rw [hexToImage, if_neg (by decide), hiw10]
    rfl
  refine ⟨?_, ?_, by rw [h9]; rfl, by rw [h10]; rfl⟩
  · intro img hok
    have he := hexToImage_ok_elim s 0 img hok
    constructor
    · intro k hk
      have hsqrt : Nat.sqrt s.length = k := by rw [← hk]; exact Nat.sqrt_eq k
      have hwidth : img.width = k := by
        rw [he.2.1, inferWidth, if_pos rfl, hsqrt, if_pos hk]
      have hk0 : 0 < k := by
        by_contra hz
        have : k = 0 := by omega
        rw [this] at hk
        omega
      refine ⟨hwidth, ?_⟩
      rw [he.2.2.1, hwidth, gridHeight]
      have harith : s.length + k - 1 = k * k + (k - 1) := by omega
      rw [harith, Nat.mul_add_div hk0]
      rw [Nat.div_eq_of_lt (by omega)]
      omega
    · intro hnk
      have hwidth : img.width = s.length := by
        rw [he.2.1, inferWidth, if_pos rfl, if_neg (hnk (Nat.sqrt s.length))]
      refine ⟨hwidth, ?_⟩
      rw [he.2.2.1, hwidth, gridHeight]
      apply Nat.div_eq_of_lt_le
      · omega
      · omega
  · intro w img hw hok
    have he := hexToImage_ok_elim s w img hok
    have hwidth : img.width = w := by rw [he.2.1, inferWidth, if_neg hw]
    have hb := ceil_div_bounds s.length w (by omega)
    refine ⟨hwidth, ?_, ?_, ?_⟩
    · rw [he.2.2.1, hwidth, gridHeight]
    · rw [he.2.2.1, hwidth, gridHeight]; exact hb.1
    · rw [he.2.2.1, hwidth, gridHeight]; exact hb.2 (by omega)

/-- Witness for C2: the 9-character inference instance extracted at a
concrete stream. -/
theorem claim_C2_witness :
    (hexToImage (List.replicate 9 '0') 0).toOption.map (fun i => (i.width, i.height))
      = some (3, 3) :=
  (claim_C2_dimension_inference ['0'] (by decide)).2.2.1

theorem hexVal_some_of_hexDigit (c : Char) (h : isASCIIHexDigit c = true) :
    ∃ v, hexVal c = some v := by
  rw [isASCIIHexDigit] at h
  simp only [Bool.or_eq_true, Bool.and_eq_true, decide_eq_true_eq] at h
  rw [hexVal]
  by_cases h1 : 48 ≤ c.toNat ∧ c.toNat ≤ 57
  · rw [if_pos h1]; exact ⟨_, rfl⟩
  · rw [if_neg h1]
    by_cases h2 : 97 ≤ c.toNat ∧ c.toNat ≤ 102
    · rw [if_pos h2]; exact ⟨_, rfl⟩
    · rw [if_neg h2]
      by_cases h3 : 65 ≤ c.toNat ∧ c.toNat ≤ 70
      · rw [if_pos h3]; exact ⟨_, rfl⟩
      · omega

theorem hexVal_none_of_not_hexDigit (c : Char) (h : isASCIIHexDigit c = false) :
    hexVal c = none := by
  rw [isASCIIHexDigit] at h
  simp only [Bool.or_eq_false_iff, Bool.and_eq_false_iff, decide_eq_false_iff_not] at h
  rw [hexVal]
  rw [if_neg (by omega), if_neg (by omega), if_neg (by omega)]

theorem hexLoop_total_ok :
    ∀ (l : List (Nat × Char)) (pix : List RGBA8),
      (∀ p ∈ l, isHexOrDot p.2 = true) → ∃ pix', hexLoop l pix = .ok pix' := by
  intro l
  induction l with
  | nil => intro pix _; exact ⟨pix, rfl⟩
  | cons p rest ih =>
    intro pix hall
    have hp : isHexOrDot p.2 = true := hall p (by simp)
    rw [isHexOrDot, Bool.or_eq_true] at hp
    rw [hexLoop]
    by_cases hc : p.2 = '.'
    · rw [if_pos hc]
      exact ih _ (fun q hq => hall q (by simp [hq]))
    · rw [if_neg hc]
      have hdig : isASCIIHexDigit p.2 = true := by
        rcases hp with hp | hp
        · exact hp
        · exact absurd (by simpa using hp) hc
      obtain ⟨v, hv⟩ := hexVal_some_of_hexDigit p.2 hdig
      rw [hv]
      exact ih _ (fun q hq => hall q (by simp [hq]))

theorem hexLoop_fail_fast (c : Char) (s2 : List Char) (hc : isHexOrDot c = false) :
    ∀ (s1 : List Char) (k : Nat) (pix : List RGBA8),
      (∀ c1 ∈ s1, isHexOrDot c1 = true) →
      hexLoop (List.enumFrom k (s1 ++ c :: s2)) pix = .error (.invalidDigit c) := by
  intro s1
  induction s1 with
  | nil =>
    intro k pix _
    simp only [List.nil_append, List.enumFrom]
    rw [hexLoop]
    have hcdot : ¬ c = '.' := by
      intro hdot
      rw [isHexOrDot, hdot] at hc
      simp at hc
    rw [if_neg hcdot]
    have hcdig : isASCIIHexDigit c = false := by
      rw [isHexOrDot, Bool.or_eq_false_iff] at hc
      exact hc.1
    rw [hexVal_none_of_not_hexDigit c hcdig]
  | cons x xs ih =>
    intro k pix hall
    have hx : isHexOrDot x = true := hall x (by simp)
    rw [isHexOrDot, Bool.or_eq_true] at hx
    simp only [List.cons_append, List.enumFrom]
    rw [hexLoop]
    by_cases hxdot : x = '.'
    · rw [if_pos hxdot]
      exact ih (k + 1) _ (fun q hq => hall q (by simp [hq]))
    · rw [if_neg hxdot]
      have hdig : isASCIIHexDigit x = true := by
        rcases hx with hx | hx
        · exact hx
        · exact absurd (by simpa using hx) hxdot
      obtain ⟨v, hv⟩ := hexVal_some_of_hexDigit x hdig
      rw [hv]
      exact ih (k + 1) _ (fun q hq => hall q (by simp [hq]))

/-- C7: in hexToImage's per-character loop, '.' produces the fully transparent
pixel and a hex digit the palette color at its value; a stream that passed
through filterHexString can never reach the InvalidDigit branch (the result
is ok, or EmptyInput on the empty stream), while a character outside the
alphabet that does reach the loop makes it fail fast with InvalidDigit
naming that character. -/
theorem claim_C7_invalid_digit :
    (∀ (s : List Char) (w0 : Nat),
      hexToImage (filterHexString s) w0 = .error .emptyInput ∨
      ∃ img, hexToImage (filterHexString s) w0 = .ok img) ∧
    (∀ (s : List Char) (w0 : Nat) (img : RGBAImage) (i : Nat),
      hexToImage s w0 = .ok img → i < s.length →
      ((s.getD i ' ' = '.' → img.pix.getD i ⟨0, 0, 0, 0⟩ = ⟨0, 0, 0, 0⟩) ∧
       (∀ v, hexVal (s.getD i ' ') = some v →
          img.pix.getD i ⟨0, 0, 0, 0⟩ = palAt v))) ∧
    (∀ (s1 : List Char) (c : Char) (s2 : List Char) (w0 : Nat),
      (∀ c1 ∈ s1, isHexOrDot c1 = true) → isHexOrDot c = false →
      hexToImage (s1 ++ c :: s2) w0 = .error (.invalidDigit c)) := by
  refine ⟨?_, ?_, ?_⟩
  · intro s w0
    by_cases hlen : (filterHexString s).length = 0
    · left; rw [hexToImage, if_pos hlen]
    · right
      have hall : ∀ p ∈ (filterHexString s).enum, isHexOrDot p.2 = true := by
        intro p hp
        have hmem : p.2 ∈ filterHexString s := mem_enumFrom_snd _ 0 p hp
        exact (List.mem_filter.mp hmem).2
      obtain ⟨pix', hpix⟩ := hexLoop_total_ok (filterHexString s).enum
        (List.replicate
          (inferWidth (filterHexString s).length w0
            * gridHeight (filterHexString s).length
              (inferWidth (filterHexString s).length w0)) ⟨0, 0, 0, 0⟩) hall
      rw [hexToImage, if_neg hlen, hpix]
      exact ⟨_, rfl⟩
  · intro s w0 img i hok hi
    have he := hexToImage_ok_elim s w0 img hok
    have hwpos : 0 < img.width := by
      rw [he.2.1]
      exact inferWidth_pos s.length w0 (by omega)
    have hbounds := ceil_div_bounds s.length img.width hwpos
    have hlen_init : i < (List.replicate (img.width * img.height) (⟨0, 0, 0, 0⟩ : RGBA8)).length := by
      rw [List.length_replicate]
      have : s.length ≤ img.width * img.height := by
        rw [he.2.2.1, gridHeight]
        exact hbounds.1
      omega
    have hmem : (i, s.getD i ' ') ∈ s.enum := by
      have := mem_enumFrom_getD s 0 i ' ' hi
      simpa using this
    have hget := hexLoop_getD s.enum _ img.pix i (s.getD i ' ') ⟨0, 0, 0, 0⟩
      he.2.2.2 (enumFrom_pairwise s 0) hmem hlen_init
    constructor
    · intro hdot
      rw [hget, decodePix, if_pos hdot]
    · intro v hv
      have hne : ¬ s.getD i ' ' = '.' := by
        intro hdot
        rw [hdot] at hv
        exact Option.noConfusion (show (none : Option Nat) = some v from hv)
      rw [hget, decodePix, if_neg hne, hv]
      rfl
  · intro s1 c s2 w0 hall hc
    have hlen : (s1 ++ c :: s2).length ≠ 0 := by
      rw [List.length_append, List.length_cons]
      omega
    rw [hexToImage, if_neg hlen]
    have hloop := hexLoop_fail_fast c s2 hc s1 0
      (List.replicate
        (inferWidth (s1 ++ c :: s2).length w0
          * gridHeight (s1 ++ c :: s2).length
            (inferWidth (s1 ++ c :: s2).length w0)) ⟨0, 0, 0, 0⟩) hall
    have henum : (s1 ++ c :: s2).enum = List.enumFrom 0 (s1 ++ c :: s2) := rfl
    rw [henum, hloop]

/-- Witness for C7: the fail-fast branch on the concrete stream "0G1" with
width 3 reports the invalid character G. -/
theorem claim_C7_witness :
    hexToImage (['0'] ++ 'G' :: ['1']) 3 = .error (.invalidDigit 'G') :=
  claim_C7_invalid_digit.2.2 ['0'] 'G' ['1'] 3 (by decide) (by decide)

/-- C10: when the stream length is not a multiple of the (supplied or
inferred) width, hexToImage still returns a full rectangle of that width and
height ceil(length/width), and every pixel position of the final row at or
beyond the stream length --- never written by the stream-driven loop --- is
RGBA(0,0,0,0), indistinguishable from an explicitly transparent cell. -/
theorem claim_C10_partial_last_row (s : List Char) (w0 : Nat) (img : RGBAImage)
    (hok : hexToImage s w0 = .ok img) (hndvd : ¬ img.width ∣ s.length) :
    (w0 ≠ 0 → img.width = w0) ∧
    img.height = (s.length + img.width - 1) / img.width ∧
    img.pix.length = img.width * img.height ∧
    s.length < img.width * img.height ∧
    (∀ i, s.length ≤ i → i < img.width * img.height →
      img.pix.getD i ⟨0, 0, 0, 0⟩ = ⟨0, 0, 0, 0⟩) := by
  have he := hexToImage_ok_elim s w0 img hok
  have hwpos : 0 < img.width := by
    rw [he.2.1]
    exact inferWidth_pos s.length w0 (by omega)
  have hbounds := ceil_div_bounds s.length img.width hwpos
  have hle : s.length ≤ img.width * img.height := by
    rw [he.2.2.1, gridHeight]
    exact hbounds.1
  have hlt : s.length < img.width * img.height := by
    rcases Nat.lt_or_ge s.length (img.width * img.height) with h | h
    · exact h
    · have heq : s.length = img.width * img.height := by omega
      exact absurd ⟨img.height, heq⟩ hndvd
  refine ⟨?_, ?_, ?_, hlt, ?_⟩
  · intro hw0
    rw [he.2.1, inferWidth, if_neg hw0]
  · rw [he.2.2.1, gridHeight]
  · rw [hexLoop_length s.enum _ img.pix he.2.2.2, List.length_replicate]
  · intro i hi hiwh
    have hnot : ∀ p ∈ s.enum, p.1 ≠ i := by
      intro p hp
      have := mem_enumFrom_bounds s 0 p hp
      omega
    rw [hexLoop_untouched s.enum _ img.pix i ⟨0, 0, 0, 0⟩ he.2.2.2 hnot]
    exact getD_replicate _ i _ _ hiwh

/-- Witness for C10 on the 3-character stream "123" with width 2: the 2 x 2
image leaves its last pixel fully transparent. -/
theorem claim_C10_witness :
    (⟨2, 2, [palAt 1, palAt 2, palAt 3, ⟨0, 0, 0, 0⟩]⟩ : RGBAImage).pix.getD 3 ⟨0, 0, 0, 0⟩
      = ⟨0, 0, 0, 0⟩ :=
  (claim_C10_partial_last_row ['1', '2', '3'] 2
      ⟨2, 2, [palAt 1, palAt 2, palAt 3, ⟨0, 0, 0, 0⟩]⟩
      (by rfl) (by decide)).2.2.2.2 3 (by decide) (by decide)

theorem readLoop_all_header :
    ∀ (lines : List (List Char)) (acc : List (List Char)) (w : Nat) (ofn : List Char),
      (∀ l ∈ lines, isHeaderLine (trimTrailCR l) = true) →
      (readLoop lines acc w ofn).1 = acc ∧ (readLoop lines acc w ofn).2.1 = w := by
  intro lines
  induction lines with
  | nil => intro acc w ofn _; exact ⟨rfl, rfl⟩
  | cons line rest ih =>
    intro acc w ofn hall
    have hl : isHeaderLine (trimTrailCR line) = true := hall line (by simp)
    rw [readLoop, if_pos hl]
    by_cases hf : isFileHeader (trimTrailCR line) = true
    · rw [if_pos hf]
      exact ih acc w _ (fun l hl2 => hall l (by simp [hl2]))
    · rw [if_neg hf]
      exact ih acc w ofn (fun l hl2 => hall l (by simp [hl2]))

/-- C5: hexToImage fails with EmptyInput exactly when its stream is empty
(no image is returned); in particular a text whose lines are all '#'-header
lines parses to an empty stream, so converting it yields EmptyInput and not
a grid. -/
theorem claim_C5_empty_input :
    (∀ (s : List Char) (w0 : Nat), hexToImage s w0 = .error .emptyInput ↔ s = []) ∧
    (∀ (text : List Char) (w0 : Nat),
      (∀ l ∈ splitLines text, isHeaderLine (trimTrailCR l) = true) →
      (readHexFromText text).1 = [] ∧
      hexToImage (readHexFromText text).1 w0 = .error .emptyInput) := by
  have hiff : ∀ (s : List Char) (w0 : Nat),
      hexToImage s w0 = .error .emptyInput ↔ s = [] := by
    intro s w0
    constructor
    · intro h
      by_cases hlen : s.length = 0
      · exact List.eq_nil_of_length_eq_zero hlen
      · exfalso
        rw [hexToImage, if_neg hlen] at h
        cases hloop : hexLoop s.enum
            (List.replicate
              (inferWidth s.length w0 * gridHeight s.length (inferWidth s.length w0))
              ⟨0, 0, 0, 0⟩) with
        | ok pix => rw [hloop] at h; exact Except.noConfusion h
        | error e =>
          rw [hloop] at h
          have he : e = ZXError.emptyInput := Except.error.inj h
          rw [he] at hloop
          exact hexLoop_ne_emptyInput _ _ hloop
    · intro h
      rw [h]
      rfl
  refine ⟨hiff, ?_⟩
  intro text w0 hall
  have hloop := readLoop_all_header (splitLines text) [] 0 [] hall
  have hstream : (readHexFromText text).1 = [] := by
    rw [readHexFromText, readHexFromLines]
    simp only
    rw [hloop.1]
    rfl
  exact ⟨hstream, by rw [hstream]; rfl⟩

/-- Witness for C5: a file consisting of one header line yields EmptyInput. -/
theorem claim_C5_witness :
    hexToImage (readHexFromText ['#', ' ', 'x', '\n']).1 3 = .error .emptyInput :=
  (claim_C5_empty_input.2 ['#', ' ', 'x', '\n'] 3 (by decide)).2

theorem readLoop_width_stable :
    ∀ (lines : List (List Char)) (acc : List (List Char)) (w : Nat) (ofn : List Char),
      w ≠ 0 → (readLoop lines acc w ofn).2.1 = w := by
  intro lines
  induction lines with
  | nil => intro acc w ofn _; rfl
  | cons line rest ih =>
    intro acc w ofn hw
    rw [readLoop]
    by_cases hh : isHeaderLine (trimTrailCR line) = true
    · rw [if_pos hh]
      by_cases hf : isFileHeader (trimTrailCR line) = true
      · rw [if_pos hf]; exact ih _ _ _ hw
      · rw [if_neg hf]; exact ih _ _ _ hw
    · rw [if_neg hh]
      by_cases he : (filterHexLine (stripInline (trimTrailCR line))).length = 0
      · rw [if_pos he]; exact ih _ _ _ hw
      · rw [if_neg he, if_neg hw]; exact ih _ _ _ hw

theorem readLoop_width :
    ∀ (lines : List (List Char)) (acc : List (List Char)) (ofn : List Char),
      (readLoop lines acc 0 ofn).2.1
        = ((lines.filterMap contentPiece).head?.map List.length).getD 0 := by
  intro lines
  induction lines with
  | nil => intro acc ofn; rfl
  | cons line rest ih =>
    intro acc ofn
    rw [readLoop, List.filterMap_cons]
    by_cases hh : isHeaderLine (trimTrailCR line) = true
    · rw [if_pos hh]
      have hcp : contentPiece line = none := by rw [contentPiece, if_pos hh]
      rw [hcp]
      by_cases hf : isFileHeader (trimTrailCR line) = true
      · rw [if_pos hf]; exact ih _ _
      · rw [if_neg hf]; exact ih _ _
    · rw [if_neg hh]
      by_cases he : (filterHexLine (stripInline (trimTrailCR line))).length = 0
      · rw [if_pos he]
        have hcp : contentPiece line = none := by
          rw [contentPiece, if_neg hh, if_pos he]
        rw [hcp]
        exact ih _ _
      · rw [if_neg he, if_pos rfl]
        have hcp : contentPiece line
            = some (filterHexLine (stripInline (trimTrailCR line))) := by
          rw [contentPiece, if_neg hh, if_neg he]
        rw [hcp]
        rw [readLoop_width_stable rest _ _ _ he]
        rfl

theorem readLoop_filename :
    ∀ (lines : List (List Char)) (acc : List (List Char)) (w : Nat) (ofn : List Char),
      (readLoop lines acc w ofn).2.2
        = (lines.filterMap filePiece).getLastD ofn := by
  intro lines
  induction lines with
  | nil => intro acc w ofn; rfl
  | cons line rest ih =>
    intro acc w ofn
    rw [readLoop, List.filterMap_cons]
    by_cases hh : isHeaderLine (trimTrailCR line) = true
    · rw [if_pos hh]
      by_cases hf : isFileHeader (trimTrailCR line) = true
      · rw [if_pos hf]
        have hfp : filePiece line
            = some (trimSpace (afterColon (trimTrailCR line))) := by
          rw [filePiece, if_pos hh, if_pos hf]
        rw [hfp, List.getLastD_cons]
        exact ih _ _ _
      · rw [if_neg hf]
        have hfp : filePiece line = none := by rw [filePiece, if_pos hh, if_neg hf]
        rw [hfp]
        exact ih _ _ _
    · rw [if_neg hh]
      have hfp : filePiece line = none := by rw [filePiece, if_neg hh]
      rw [hfp]
      by_cases he : (filterHexLine (stripInline (trimTrailCR line))).length = 0
      · rw [if_pos he]; exact ih _ _ _
      · rw [if_neg he]
        by_cases hw : w = 0
        · rw [if_pos hw]; exact ih _ _ _
        · rw [if_neg hw]; exact ih _ _ _

theorem readLoop_skip_header (hdr : List Char) (l2 : List (List Char))
    (hh : isHeaderLine (trimTrailCR hdr) = true)
    (hf : isFileHeader (trimTrailCR hdr) = false) :
    ∀ (l1 : List (List Char)) (acc : List (List Char)) (w : Nat) (ofn : List Char),
      readLoop (l1 ++ hdr :: l2) acc w ofn = readLoop (l1 ++ l2) acc w ofn := by
  intro l1
  induction l1 with
  | nil =>
    intro acc w ofn
    rw [List.nil_append, List.nil_append, readLoop, if_pos hh, if_neg (by rw [hf]; simp)]
  | cons line rest ih =>
    intro acc w ofn
    rw [List.cons_append, List.cons_append, readLoop, readLoop]
    simp only [ih]

/-- C6: when parsing row-mode text, only the "file:" header is semantically
consumed --- the recovered filename is the trimmed remainder of the last such
line; any other '#'-header line (width, height, generator) can be inserted or
removed anywhere with no effect on the parse; and the declared width is
always the length of the first non-empty processed content line (0 when
there is none), never a value stated in a "# width:" header. -/
theorem claim_C6_header_semantics :
    (∀ (l1 : List (List Char)) (hdr : List Char) (l2 : List (List Char)),
      isHeaderLine (trimTrailCR hdr) = true → isFileHeader (trimTrailCR hdr) = false →
      readHexFromLines (l1 ++ hdr :: l2) = readHexFromLines (l1 ++ l2)) ∧
    (∀ lines : List (List Char),
      (readHexFromLines lines).2.1
        = ((lines.filterMap contentPiece).head?.map List.length).getD 0) ∧
    (∀ lines : List (List Char),
      (readHexFromLines lines).2.2 = (lines.filterMap filePiece).getLastD []) := by
  refine ⟨?_, ?_, ?_⟩
  · intro l1 hdr l2 hh hf
    rw [readHexFromLines, readHexFromLines, readLoop_skip_header hdr l2 hh hf l1 [] 0 []]
  · intro lines
    rw [readHexFromLines]
    exact readLoop_width lines [] []
  · intro lines
    rw [readHexFromLines]
    exact readLoop_filename lines [] 0 []

/-- Witness for C6: inserting a "# width: 9" header line changes nothing in
the parse of a one-line grid. -/
theorem claim_C6_witness :
    readHexFromLines ([] ++ ['#', ' ', 'w', 'i', 'd', 't', 'h', ':', ' ', '9'] :: [['0', 'F']])
      = readHexFromLines ([] ++ [['0', 'F']]) :=
  claim_C6_header_semantics.1 [] ['#', ' ', 'w', 'i', 'd', 't', 'h', ':', ' ', '9']
    [['0', 'F']] (by decide) (by decide)

theorem cellLoop_hexLoop :
    ∀ (l : List (Nat × Char)) (cs : List Cell),
      hexLoop l (cs.map cellColor) = (cellLoop l cs).map (List.map cellColor) := by
  intro l
  induction l with
  | nil => intro cs; rfl
  | cons p rest ih =>
    intro cs
    obtain ⟨i, c⟩ := p
    rw [hexLoop, cellLoop]
    by_cases hc : c = '.'
    · rw [if_pos hc, if_pos hc]
      have hset : (cs.map cellColor).set i ⟨0, 0, 0, 0⟩
          = (cs.set i .transparent).map cellColor := by
        rw [List.map_set]
        rfl
      rw [hset]
      exact ih _
    · rw [if_neg hc, if_neg hc]
      cases hv : hexVal c with
      | some v =>
        show hexLoop rest ((cs.map cellColor).set i (palAt v))
            = Except.map (List.map cellColor) (cellLoop rest (cs.set i (.palette v)))
        have hset : (cs.map cellColor).set i (palAt v)
            = (cs.set i (.palette v)).map cellColor := by
          rw [List.map_set]
          rfl
        rw [hset]
        exact ih _
      | none => rfl

theorem hexToImage_eq_render_charStreamToGrid (s : List Char) (w0 : Nat) :
    hexToImage s w0 = (charStreamToGrid s w0).map
      (fun g => ⟨g.width, g.height, g.cells.map cellColor⟩) := by
  by_cases hlen : s.length = 0
  · rw [hexToImage, charStreamToGrid, if_pos hlen, if_pos hlen]; rfl
  · rw [hexToImage, charStreamToGrid, if_neg hlen, if_neg hlen]
    have hrep : (List.replicate
        (inferWidth s.length w0 * gridHeight s.length (inferWidth s.length w0))
        (⟨0, 0, 0, 0⟩ : RGBA8))
        = (List.replicate
            (inferWidth s.length w0 * gridHeight s.length (inferWidth s.length w0))
            Cell.transparent).map cellColor := by
      rw [List.map_replicate]
      rfl
    rw [hrep, cellLoop_hexLoop]
    cases hcl : cellLoop s.enum
        (List.replicate
          (inferWidth s.length w0 * gridHeight s.length (inferWidth s.length w0))
          Cell.transparent) with
    | ok cs => rfl
    | error e => rfl

theorem hexUpper_ne_eight (n : Nat) (hn : n < 16) : n ≠ 8 → hexUpper n ≠ '8' := by
  interval_cases n <;> revert hn <;> decide

theorem pixelChar_ne_eight (cfg : TranspConfig) (p : Pixel16) :
    pixelChar cfg p ≠ '8' := by
  rw [pixelChar]
  by_cases ht : shouldBeTransparent cfg p.r p.g p.b p.a = true
  · rw [if_pos ht]; decide
  · rw [if_neg ht]
    exact hexUpper_ne_eight (nearestColor p.r p.g p.b)
      (nearestColor_spec p.r p.g p.b).1 (nearestColor_ne_eight p.r p.g p.b)

theorem eight_not_mem_body (cfg : TranspConfig) (w h : Nat)
    (pix : Nat → Nat → Pixel16) : '8' ∉ (imageBodyRows cfg w h pix).flatten := by
  intro hmem
  rw [List.mem_flatten] at hmem
  obtain ⟨row, hrow, hc⟩ := hmem
  rw [imageBodyRows] at hrow
  rcases List.mem_map.mp hrow with ⟨y, _, hy⟩
  rw [← hy] at hc
  rcases List.mem_map.mp hc with ⟨x, _, hx⟩
  exact pixelChar_ne_eight cfg (pix x y) hx

/-- C9 counterexample: an opaque 8 x 1 black image, encoded with the default
configuration, produces imageToHex output that does contain the digit '8'
(in its "# width: 8" header line), refuting the claim as stated. -/
theorem claim_C9_counterexample :
    '8' ∈ imageToHexChars ⟨[], -1⟩ ['x'] 8 1 (fun _ _ => ⟨0, 0, 0, 65535⟩) := by
  decide

/-- C9 (amended): nearestColor never returns index 8 --- palette entry 8 is
byte-identical to entry 0 and the scan replaces the best index only on a
strictly smaller distance, so index 0 wins the tie; consequently the digit
'8' never appears among the grid-body characters of imageToHex nor anywhere
in imageToRawHex's output. (The header block of imageToHex can still contain
'8' inside the width, height, or filename text.) -/
theorem claim_C9_no_eight (r g b : Nat) (cfg : TranspConfig) (w h : Nat)
    (pix : Nat → Nat → Pixel16) :
    ((nearestColor r g b == 8) = false) ∧
    ((imageBodyRows cfg w h pix).flatten.count '8' = 0) ∧
    ((imageToRawHexChars cfg w h pix).count '8' = 0) := by
  refine ⟨beq_eq_false_iff_ne.mpr (nearestColor_ne_eight r g b), ?_, ?_⟩
  · exact List.count_eq_zero.mpr (eight_not_mem_body cfg w h pix)
  · rw [imageToRawHexChars, List.count_append]
    rw [List.count_eq_zero.mpr (eight_not_mem_body cfg w h pix)]
    rfl

/-- C8: in direct-string mode an unset or zero width fails with
ConfigurationError before any decode attempt is made on the input string;
when a width is set, a leading "0x" or "0X" prefix of the trimmed input is
stripped before filtering and decoding. -/
theorem claim_C8_direct_string (input : List Char) (w : Nat) :
    (w = 0 → directStringMode input w = .error .configurationError) ∧
    (w ≠ 0 →
      directStringMode input w
        = hexToImage (filterHexString (strip0x (trimSpace input))) w ∧
      (∀ rest, trimSpace input = '0' :: 'x' :: rest →
        directStringMode input w = hexToImage (filterHexString rest) w) ∧
      (∀ rest, trimSpace input = '0' :: 'X' :: rest →
        directStringMode input w = hexToImage (filterHexString rest) w)) := by
  constructor
  · intro h0
    rw [directStringMode, if_pos h0]
  · intro hw
    refine ⟨by rw [directStringMode, if_neg hw], ?_, ?_⟩
    · intro rest hr
      rw [directStringMode, if_neg hw, hr]
      rfl
    · intro rest hr
      rw [directStringMode, if_neg hw, hr]
      rfl

/-- Witness for C8: a width of 1 with the input " 0x1" strips the prefix. -/
theorem claim_C8_witness :
    directStringMode [' ', '0', 'x', '1'] 1 = hexToImage (filterHexString ['1']) 1 :=
  ((claim_C8_direct_string [' ', '0', 'x', '1'] 1).2 (by decide)).2.1 ['1'] (by decide)

theorem natToDecAux_digits :
    ∀ (fuel n : Nat) (c : Char), c ∈ natToDecAux fuel n →
      48 ≤ c.toNat ∧ c.toNat ≤ 57 := by
  intro fuel
  induction fuel with
  | zero => intro n c h; simp [natToDecAux] at h
  | succ f ih =>
    intro n c h
    rw [natToDecAux] at h
    by_cases hn : n < 10
    · rw [if_pos hn] at h
      simp only [List.mem_singleton] at h
      subst h
      interval_cases n <;> decide
    · rw [if_neg hn] at h
      rcases List.mem_append.mp h with h | h
      · exact ih _ c h
      · simp only [List.mem_singleton] at h
        subst h
        have hm : n % 10 < 10 := Nat.mod_lt _ (by omega)
        revert hm
        generalize n % 10 = m
        intro hm
        interval_cases m <;> decide

theorem natToDec_digits (n : Nat) (c : Char) (hc : c ∈ natToDec n) :
    48 ≤ c.toNat ∧ c.toNat ≤ 57 :=
  natToDecAux_digits (n + 1) n c hc

theorem isHexOrDot_toNat (c : Char) (h : isHexOrDot c = true) :
    (48 ≤ c.toNat ∧ c.toNat ≤ 57) ∨ (97 ≤ c.toNat ∧ c.toNat ≤ 102) ∨
    (65 ≤ c.toNat ∧ c.toNat ≤ 70) ∨ c.toNat = 46 := by
  rw [isHexOrDot, isASCIIHexDigit] at h
  simp only [Bool.or_eq_true, Bool.and_eq_true, decide_eq_true_eq, beq_iff_eq] at h
  rcases h with ((h | h) | h) | h
  · exact Or.inl h
  · exact Or.inr (Or.inl h)
  · exact Or.inr (Or.inr (Or.inl h))
  · subst h; exact Or.inr (Or.inr (Or.inr rfl))

theorem hexOrDot_char_facts (c : Char) (h : isHexOrDot c = true) :
    (c == '\r') = false ∧ (c == '#') = false ∧ (c == ' ') = false ∧
    (c == '\t') = false ∧ c ≠ '\n' := by
  have ht := isHexOrDot_toNat c h
  refine ⟨?_, ?_, ?_, ?_, ?_⟩
  · apply beq_eq_false_iff_ne.mpr
    intro he; rw [he] at ht; revert ht; decide
  · apply beq_eq_false_iff_ne.mpr
    intro he; rw [he] at ht; revert ht; decide
  · apply beq_eq_false_iff_ne.mpr
    intro he; rw [he] at ht; revert ht; decide
  · apply beq_eq_false_iff_ne.mpr
    intro he; rw [he] at ht; revert ht; decide
  · intro he; rw [he] at ht; revert ht; decide

theorem trimTrailCR_eq_self (l : List Char) (h : ∀ c ∈ l, (c == '\r') = false) :
    trimTrailCR l = l := by
  rw [trimTrailCR]
  cases hrev : l.reverse with
  | nil =>
    have hl : l = [] := by simpa using congrArg List.reverse hrev
    rw [hl]
    rfl
  | cons x xs =>
    have hx : x ∈ l := by
      rw [← List.mem_reverse, hrev]
      simp
    rw [List.dropWhile_cons, if_neg (by simp [h x hx])]
    rw [← hrev, List.reverse_reverse]

theorem trimTrailCR_append (a b : List Char) (ha : ∀ c ∈ a, (c == '\r') = false) :
    trimTrailCR (a ++ b) = a ++ trimTrailCR b := by
  rw [trimTrailCR, trimTrailCR, List.reverse_append, List.dropWhile_append]
  by_cases hb : (b.reverse.dropWhile (fun c => c == '\r')).isEmpty = true
  · rw [if_pos hb]
    have hdrop : a.reverse.dropWhile (fun c => c == '\r') = a.reverse := by
      cases hrev : a.reverse with
      | nil => rfl
      | cons x xs =>
        have hx : x ∈ a := by
          rw [← List.mem_reverse, hrev]
          simp
        rw [List.dropWhile_cons, if_neg (by simp [ha x hx])]
    rw [hdrop, List.reverse_reverse]
    have hbe : b.reverse.dropWhile (fun c => c == '\r') = [] := by
      cases hde : b.reverse.dropWhile (fun c => c == '\r') with
      | nil => rfl
      | cons y ys => rw [hde] at hb; simp [List.isEmpty] at hb
    rw [hbe]
    simp
  · rw [if_neg hb, List.reverse_append, List.reverse_reverse]

theorem splitLinesAux_append :
    ∀ (a cur rest : List Char), '\n' ∉ a →
      splitLinesAux cur (a ++ '\n' :: rest) = (cur.reverse ++ a) :: splitLines rest := by
  intro a
  induction a with
  | nil =>
    intro cur rest _
    rw [List.nil_append, splitLinesAux, if_pos rfl]
    simp [splitLines]
  | cons c a' ih =>
    intro cur rest hnl
    have hc : ¬ c = '\n' := by
      intro he
      exact hnl (by rw [he]; simp)
    rw [List.cons_append, splitLinesAux, if_neg hc]
    rw [ih (c :: cur) rest (fun hm => hnl (by simp [hm]))]
    simp

theorem splitLines_append_line (a rest : List Char) (ha : '\n' ∉ a) :
    splitLines (a ++ '\n' :: rest) = a :: splitLines rest := by
  rw [splitLines, splitLinesAux_append a [] rest ha]
  rfl

theorem splitLines_rows :
    ∀ (rows : List (List Char)), (∀ r ∈ rows, '\n' ∉ r) →
      splitLines ((rows.map (fun r => r ++ ['\n'])).flatten) = rows := by
  intro rows
  induction rows with
  | nil => intro _; rfl
  | cons r rest ih =>
    intro hnl
    rw [List.map_cons, List.flatten_cons]
    have hsh : (r ++ ['\n']) ++ (rest.map (fun r => r ++ ['\n'])).flatten
        = r ++ '\n' :: (rest.map (fun r => r ++ ['\n'])).flatten := by
      simp
    rw [hsh, splitLines_append_line r _ (hnl r (by simp))]
    rw [ih (fun l hl => hnl l (by simp [hl]))]

theorem cellChar_hexOrDot (c : Cell) (h : cellValidB c = true) :
    isHexOrDot (cellChar c) = true := by
  cases c with
  | transparent => decide
  | palette i =>
    have hi : i < 16 := of_decide_eq_true (by rwa [cellValidB] at h)
    rw [cellChar]
    interval_cases i <;> decide

theorem decodeCellChar_cellChar (c : Cell) (h : cellValidB c = true) :
    decodeCellChar (cellChar c) = c := by
  cases c with
  | transparent => decide
  | palette i =>
    have hi : i < 16 := of_decide_eq_true (by rwa [cellValidB] at h)
    rw [cellChar]
    interval_cases i <;> decide

theorem readLoop_content_line (line : List Char) (hne : line ≠ [])
    (hclean : ∀ c ∈ line, isHexOrDot c = true) :
    trimTrailCR line = line ∧ isHeaderLine line = false ∧
    stripInline line = line ∧ filterHexLine line = line := by
  refine ⟨?_, ?_, ?_, ?_⟩
  · exact trimTrailCR_eq_self line (fun c hc => (hexOrDot_char_facts c (hclean c hc)).1)
  · cases line with
    | nil => exact absurd rfl hne
    | cons x xs =>
      show (x == '#') = false
      exact (hexOrDot_char_facts x (hclean x (by simp))).2.1
  · rw [stripInline]
    apply List.takeWhile_eq_self_iff.mpr
    intro x hx
    simp [(hexOrDot_char_facts x (hclean x hx)).2.1]
  · rw [filterHexLine]
    apply List.filter_eq_self.mpr
    intro c hc
    have hf := hexOrDot_char_facts c (hclean c hc)
    simp [hf.2.1, hf.2.2.1, hf.2.2.2.1]

theorem readLoop_clean :
    ∀ (lines : List (List Char)),
      (∀ l ∈ lines, l ≠ [] ∧ ∀ c ∈ l, isHexOrDot c = true) →
      ∀ (acc : List (List Char)) (w : Nat) (ofn : List Char), w ≠ 0 →
        readLoop lines acc w ofn = (acc ++ lines, w, ofn) := by
  intro lines
  induction lines with
  | nil => intro _ acc w ofn _; simp [readLoop]
  | cons line rest ih =>
    intro hcl acc w ofn hw
    have hc := hcl line (by simp)
    have hf := readLoop_content_line line hc.1 hc.2
    rw [readLoop, hf.1, if_neg (by rw [hf.2.1]; simp)]
    rw [hf.2.2.1, hf.2.2.2]
    rw [if_neg (by simpa [List.length_eq_zero] using hc.1)]
    rw [if_neg hw]
    rw [ih (fun l hl => hcl l (by simp [hl])) _ _ _ hw]
    simp

theorem readLoop_clean_first (line : List Char) (lines : List (List Char))
    (hcl : ∀ l ∈ line :: lines, l ≠ [] ∧ ∀ c ∈ l, isHexOrDot c = true)
    (acc : List (List Char)) (ofn : List Char) :
    readLoop (line :: lines) acc 0 ofn = (acc ++ line :: lines, line.length, ofn) := by
  have hc := hcl line (by simp)
  have hf := readLoop_content_line line hc.1 hc.2
  have hlen0 : line.length ≠ 0 := by simpa [List.length_eq_zero] using hc.1
  rw [readLoop, hf.1, if_neg (by rw [hf.2.1]; simp)]
  rw [hf.2.2.1, hf.2.2.2]
  rw [if_neg hlen0, if_pos rfl]
  rw [readLoop_clean lines (fun l hl => hcl l (by simp [hl])) _ _ _ hlen0]
  simp

theorem encodeRows_shape (fname : List Char) (w : Nat) (rows : List (List Cell)) :
    encodeRows fname w rows
      = (['#', ' ', 'f', 'i', 'l', 'e', ':', ' '] ++ fname) ++ '\n' ::
        ((['#', ' ', 'w', 'i', 'd', 't', 'h', ':', ' '] ++ natToDec w) ++ '\n' ::
          ((['#', ' ', 'h', 'e', 'i', 'g', 'h', 't', ':', ' ']
              ++ natToDec rows.length) ++ '\n' ::
            (['#', ' ', 'g', 'e', 'n', 'e', 'r', 'a', 't', 'o', 'r', ':', ' ',
                'z', 'x', 't', 'e', 'x'] ++ '\n' ::
              (rows.map (fun row => row.map cellChar ++ ['\n'])).flatten))) := by
  rw [encodeRows, headerChars]
  simp [List.append_assoc]

theorem splitLines_encodeRows (fname : List Char) (w : Nat) (rows : List (List Cell))
    (hfn : '\n' ∉ fname)
    (hvalid : ∀ r ∈ rows, ∀ c ∈ r, cellValidB c = true) :
    splitLines (encodeRows fname w rows)
      = (['#', ' ', 'f', 'i', 'l', 'e', ':', ' '] ++ fname)
        :: (['#', ' ', 'w', 'i', 'd', 't', 'h', ':', ' '] ++ natToDec w)
        :: (['#', ' ', 'h', 'e', 'i', 'g', 'h', 't', ':', ' '] ++ natToDec rows.length)
        :: ['#', ' ', 'g', 'e', 'n', 'e', 'r', 'a', 't', 'o', 'r', ':', ' ',
            'z', 'x', 't', 'e', 'x']
        :: rows.map (fun r => r.map cellChar) := by
  have hnl1 : '\n' ∉ ['#', ' ', 'f', 'i', 'l', 'e', ':', ' '] ++ fname := by
    intro hm
    rcases List.mem_append.mp hm with hm | hm
    · revert hm; decide
    · exact hfn hm
  have hdec : ∀ n : Nat, ('\n' : Char) ∉ natToDec n := by
    intro n hm
    have := natToDec_digits n '\n' hm
    revert this; decide
  have hnl2 : '\n' ∉ ['#', ' ', 'w', 'i', 'd', 't', 'h', ':', ' '] ++ natToDec w := by
    intro hm
    rcases List.mem_append.mp hm with hm | hm
    · revert hm; decide
    · exact hdec w hm
  have hnl3 : '\n' ∉ ['#', ' ', 'h', 'e', 'i', 'g', 'h', 't', ':', ' ']
      ++ natToDec rows.length := by
    intro hm
    rcases List.mem_append.mp hm with hm | hm
    · revert hm; decide
    · exact hdec rows.length hm
  have hnl4 : ('\n' : Char) ∉ ['#', ' ', 'g', 'e', 'n', 'e', 'r', 'a', 't', 'o', 'r',
      ':', ' ', 'z', 'x', 't', 'e', 'x'] := by decide
  have hrowsNL : ∀ r ∈ rows.map (fun r => List.map cellChar r), '\n' ∉ r := by
    intro r hr
    rcases List.mem_map.mp hr with ⟨row, hrow, hrm⟩
    intro hm
    rw [← hrm] at hm
    rcases List.mem_map.mp hm with ⟨c, hc, hcc⟩
    have := cellChar_hexOrDot c (hvalid row hrow c hc)
    rw [hcc] at this
    exact (hexOrDot_char_facts '\n' this).2.2.2.2 rfl
  rw [encodeRows_shape]
  rw [splitLines_append_line _ _ hnl1]
  rw [splitLines_append_line _ _ hnl2]
  rw [splitLines_append_line _ _ hnl3]
  rw [splitLines_append_line _ _ hnl4]
  have hbody : (rows.map (fun row => row.map cellChar ++ ['\n'])).flatten
      = ((rows.map (fun r => r.map cellChar)).map (fun r => r ++ ['\n'])).flatten := by
    rw [List.map_map]
    rfl
  rw [hbody, splitLines_rows _ hrowsNL]

theorem natToDec_no_cr (n : Nat) : ∀ c ∈ natToDec n, (c == '\r') = false := by
  intro c hc
  have hd := natToDec_digits n c hc
  apply beq_eq_false_iff_ne.mpr
  intro he
  rw [he] at hd
  revert hd
  decide

theorem readLoop_header_lines (fname : List Char) (w h : Nat)
    (lines : List (List Char)) (acc : List (List Char)) (wq : Nat) (ofn : List Char) :
    readLoop ((['#', ' ', 'f', 'i', 'l', 'e', ':', ' '] ++ fname)
        :: (['#', ' ', 'w', 'i', 'd', 't', 'h', ':', ' '] ++ natToDec w)
        :: (['#', ' ', 'h', 'e', 'i', 'g', 'h', 't', ':', ' '] ++ natToDec h)
        :: ['#', ' ', 'g', 'e', 'n', 'e', 'r', 'a', 't', 'o', 'r', ':', ' ',
            'z', 'x', 't', 'e', 'x']
        :: lines) acc wq ofn
      = readLoop lines acc wq
          (trimSpace (afterColon
            (['#', ' ', 'f', 'i', 'l', 'e', ':', ' '] ++ trimTrailCR fname))) := by
  have htrim1 : trimTrailCR (['#', ' ', 'f', 'i', 'l', 'e', ':', ' '] ++ fname)
      = ['#', ' ', 'f', 'i', 'l', 'e', ':', ' '] ++ trimTrailCR fname :=
    trimTrailCR_append _ _ (by decide)
  have htrim2 : trimTrailCR (['#', ' ', 'w', 'i', 'd', 't', 'h', ':', ' '] ++ natToDec w)
      = ['#', ' ', 'w', 'i', 'd', 't', 'h', ':', ' '] ++ natToDec w := by
    apply trimTrailCR_eq_self
    intro c hc
    rcases List.mem_append.mp hc with hc | hc
    · exact (by decide :
        ∀ c ∈ ['#', ' ', 'w', 'i', 'd', 't', 'h', ':', ' '], (c == '\r') = false) c hc
    · exact natToDec_no_cr w c hc
  have htrim3 : trimTrailCR
      (['#', ' ', 'h', 'e', 'i', 'g', 'h', 't', ':', ' '] ++ natToDec h)
      = ['#', ' ', 'h', 'e', 'i', 'g', 'h', 't', ':', ' '] ++ natToDec h := by
    apply trimTrailCR_eq_self
    intro c hc
    rcases List.mem_append.mp hc with hc | hc
    · exact (by decide :
        ∀ c ∈ ['#', ' ', 'h', 'e', 'i', 'g', 'h', 't', ':', ' '],
          (c == '\r') = false) c hc
    · exact natToDec_no_cr h c hc
  rw [readLoop, htrim1]
  rw [if_pos (show isHeaderLine
      (['#', ' ', 'f', 'i', 'l', 'e', ':', ' '] ++ trimTrailCR fname) = true from rfl)]
  rw [if_pos (show isFileHeader
      (['#', ' ', 'f', 'i', 'l', 'e', ':', ' '] ++ trimTrailCR fname) = true from rfl)]
  rw [readLoop, htrim2]
  rw [if_pos (show isHeaderLine
      (['#', ' ', 'w', 'i', 'd', 't', 'h', ':', ' '] ++ natToDec w) = true from rfl)]
  rw [if_neg (show ¬ isFileHeader
      (['#', ' ', 'w', 'i', 'd', 't', 'h', ':', ' '] ++ natToDec w) = true by
    rw [show isFileHeader
      (['#', ' ', 'w', 'i', 'd', 't', 'h', ':', ' '] ++ natToDec w) = false from rfl]
    simp)]
  rw [readLoop, htrim3]
  rw [if_pos (show isHeaderLine
      (['#', ' ', 'h', 'e', 'i', 'g', 'h', 't', ':', ' '] ++ natToDec h) = true from rfl)]
  rw [if_neg (show ¬ isFileHeader
      (['#', ' ', 'h', 'e', 'i', 'g', 'h', 't', ':', ' '] ++ natToDec h) = true by
    rw [show isFileHeader
      (['#', ' ', 'h', 'e', 'i', 'g', 'h', 't', ':', ' '] ++ natToDec h) = false from rfl]
    simp)]
  rw [readLoop]
  rw [if_pos (show isHeaderLine (trimTrailCR
      ['#', ' ', 'g', 'e', 'n', 'e', 'r', 'a', 't', 'o', 'r', ':', ' ',
        'z', 'x', 't', 'e', 'x']) = true by decide)]
  rw [if_neg (show ¬ isFileHeader (trimTrailCR
      ['#', ' ', 'g', 'e', 'n', 'e', 'r', 'a', 't', 'o', 'r', ':', ' ',
        'z', 'x', 't', 'e', 'x']) = true by decide)]

theorem flatten_length_uniform {α : Type} (w : Nat) :
    ∀ (L : List (List α)), (∀ r ∈ L, r.length = w) →
      L.flatten.length = w * L.length := by
  intro L
  induction L with
  | nil => intro _; simp
  | cons r rest ih =>
    intro h
    rw [List.flatten_cons, List.length_append, h r (by simp),
      ih (fun l hl => h l (by simp [hl])), List.length_cons]
    ring

theorem cellLoop_fill :
    ∀ (s : List Char) (pre suf : List Cell),
      suf.length = s.length →
      (∀ c ∈ s, isHexOrDot c = true) →
      cellLoop (List.enumFrom pre.length s) (pre ++ suf)
        = .ok (pre ++ s.map decodeCellChar) := by
  intro s
  induction s with
  | nil =>
    intro pre suf hlen _
    have hsuf : suf = [] := List.eq_nil_of_length_eq_zero hlen
    rw [hsuf]
    simp [List.enumFrom, cellLoop]
  | cons c cs ih =>
    intro pre suf hlen hall
    cases suf with
    | nil => simp at hlen
    | cons v suf' =>
      rw [List.enumFrom, cellLoop]
      have hset : ∀ x : Cell, (pre ++ v :: suf').set pre.length x = pre ++ x :: suf' := by
        intro x
        rw [List.set_append_right _ _ (le_refl _)]
        simp
      have hc := hall c (by simp)
      have hlen' : suf'.length = cs.length := by simpa using hlen
      by_cases hdot : c = '.'
      · rw [if_pos hdot, hset]
        have hrw : pre ++ Cell.transparent :: suf' = (pre ++ [Cell.transparent]) ++ suf' := by
          simp
        rw [hrw]
        have hih := ih (pre ++ [Cell.transparent]) suf'
          (by simpa using hlen')
          (fun c' hc' => hall c' (by simp [hc']))
        rw [show (pre ++ [Cell.transparent]).length = pre.length + 1 by simp] at hih
        rw [hih, List.map_cons, decodeCellChar, if_pos hdot]
        simp
      · rw [if_neg hdot]
        rw [isHexOrDot, Bool.or_eq_true] at hc
        have hdig : isASCIIHexDigit c = true := by
          rcases hc with hc | hc
          · exact hc
          · exact absurd (by simpa using hc) hdot
        obtain ⟨u, hu⟩ := hexVal_some_of_hexDigit c hdig
        rw [hu]
        show cellLoop (List.enumFrom (pre.length + 1) cs)
            ((pre ++ v :: suf').set pre.length (Cell.palette u))
          = Except.ok (pre ++ List.map decodeCellChar (c :: cs))
        rw [hset]
        have hrw : pre ++ Cell.palette u :: suf' = (pre ++ [Cell.palette u]) ++ suf' := by
          simp
        rw [hrw]
        have hih := ih (pre ++ [Cell.palette u]) suf'
          (by simpa using hlen')
          (fun c' hc' => hall c' (by simp [hc']))
        rw [show (pre ++ [Cell.palette u]).length = pre.length + 1 by simp] at hih
        rw [hih, List.map_cons, decodeCellChar, if_neg hdot, hu]
        simp

/-- C1: round trip. Encoding a quantized grid in row mode (header plus one
hex/'.' line per row, exactly as imageToHex lays it out) and parsing the text
back (header stripping, space and tab removal, hex/'.' filtering, the width
taken from the first content line, then grid construction) yields a grid
identical in width, height and per-cell content (Transparent versus
PaletteIndex value) to the original, for every grid of width at least 1
whose rows are non-empty (all of length equal to the width) and whose cells
carry indices below 16, the only cells the encoder produces. -/
theorem claim_C1_roundtrip (fname : List Char) (w : Nat) (rows : List (List Cell))
    (hw : 1 ≤ w) (hrows : rows ≠ []) (hlen : ∀ r ∈ rows, r.length = w)
    (hvalid : ∀ r ∈ rows, ∀ c ∈ r, cellValidB c = true)
    (hfn : '\n' ∉ fname) :
    (readHexFromText (encodeRows fname w rows)).2.1 = w ∧
    charStreamToGrid (readHexFromText (encodeRows fname w rows)).1
        (readHexFromText (encodeRows fname w rows)).2.1
      = .ok ⟨w, rows.length, rows.flatten⟩ := by
  have hsplit := splitLines_encodeRows fname w rows hfn hvalid
  have hclean : ∀ l ∈ rows.map (fun r => r.map cellChar),
      l ≠ [] ∧ ∀ c ∈ l, isHexOrDot c = true := by
    intro l hl
    rcases List.mem_map.mp hl with ⟨row, hrow, hmap⟩
    constructor
    · intro hnil
      rw [← hmap] at hnil
      have hr0 : row = [] := by
        cases row with
        | nil => rfl
        | cons a t => simp at hnil
      have hlw := hlen row hrow
      rw [hr0] at hlw
      simp at hlw
      omega
    · intro c hc
      rw [← hmap] at hc
      rcases List.mem_map.mp hc with ⟨cell, hcell, hcc⟩
      rw [← hcc]
      exact cellChar_hexOrDot cell (hvalid row hrow cell hcell)
  obtain ⟨r0, rest, hr0⟩ : ∃ r0 rest, rows = r0 :: rest := by
    cases rows with
    | nil => exact absurd rfl hrows
    | cons a l => exact ⟨a, l, rfl⟩
  have hread : readLoop (splitLines (encodeRows fname w rows)) [] 0 []
      = (rows.map (fun r => r.map cellChar), w,
          trimSpace (afterColon
            (['#', ' ', 'f', 'i', 'l', 'e', ':', ' '] ++ trimTrailCR fname))) := by
    rw [hsplit, readLoop_header_lines]
    have hclean' := hclean
    rw [hr0, List.map_cons] at hclean' ⊢
    rw [readLoop_clean_first _ _ hclean' [] _]
    rw [List.nil_append, List.length_map, hlen r0 (by rw [hr0]; simp)]
  have hstream : (readHexFromText (encodeRows fname w rows)).1
      = (rows.map (fun r => r.map cellChar)).flatten := by
    rw [readHexFromText, readHexFromLines]
    simp only
    rw [hread, filterHexString]
    apply List.filter_eq_self.mpr
    intro c hc
    rw [List.mem_flatten] at hc
    obtain ⟨l, hl, hc2⟩ := hc
    exact (hclean l hl).2 c hc2
  have hwidth : (readHexFromText (encodeRows fname w rows)).2.1 = w := by
    rw [readHexFromText, readHexFromLines]
    simp only
    rw [hread]
  refine ⟨hwidth, ?_⟩
  rw [hstream, hwidth]
  have hLlen : (rows.map (fun r => r.map cellChar)).flatten.length = w * rows.length := by
    rw [flatten_length_uniform w _ ?_, List.length_map]
    intro r hr
    rcases List.mem_map.mp hr with ⟨row, hrow, hmap⟩
    rw [← hmap, List.length_map]
    exact hlen row hrow
  have hL0 : (rows.map (fun r => r.map cellChar)).flatten.length ≠ 0 := by
    rw [hLlen]
    have h1 : 0 < rows.length := List.length_pos.mpr hrows
    have := Nat.mul_pos (show 0 < w by omega) h1
    omega
  rw [charStreamToGrid, if_neg hL0]
  have hinf : inferWidth (rows.map (fun r => r.map cellChar)).flatten.length w = w := by
    rw [inferWidth, if_neg (by omega)]
  rw [hinf]
  have hgh : gridHeight (rows.map (fun r => r.map cellChar)).flatten.length w
      = rows.length := by
    rw [gridHeight, hLlen]
    have harith : w * rows.length + w - 1 = w * rows.length + (w - 1) := by omega
    rw [harith, Nat.mul_add_div (by omega), Nat.div_eq_of_lt (by omega)]
    omega
  rw [hgh]
  have hfill := cellLoop_fill (rows.map (fun r => r.map cellChar)).flatten []
      (List.replicate (w * rows.length) Cell.transparent)
      (by rw [List.length_replicate, hLlen])
      (fun c hc => by
        rw [List.mem_flatten] at hc
        obtain ⟨l, hl, hc2⟩ := hc
        exact (hclean l hl).2 c hc2)
  rw [List.nil_append] at hfill
  have henum : (rows.map (fun r => r.map cellChar)).flatten.enum
      = List.enumFrom ([] : List Cell).length
          (rows.map (fun r => r.map cellChar)).flatten := rfl
  rw [henum, hfill]
  have hmapdec : (rows.map (fun r => r.map cellChar)).flatten.map decodeCellChar
      = rows.flatten := by
    rw [List.map_flatten, List.map_map]
    congr 1
    have hcongr : rows.map (List.map decodeCellChar ∘ fun r => List.map cellChar r)
        = rows.map (fun r => r) := by
      apply List.map_congr_left
      intro r hr
      show (r.map cellChar).map decodeCellChar = r
      rw [List.map_map]
      have hid : ∀ c ∈ r, (decodeCellChar ∘ cellChar) c = c := fun c hc =>
        decodeCellChar_cellChar c (hvalid r hr c hc)
      rw [List.map_congr_left hid, List.map_id']
    rw [hcongr, List.map_id']
  show Except.ok (⟨w, rows.length,
      ([] : List Cell) ++ (rows.map (fun r => r.map cellChar)).flatten.map decodeCellChar⟩
      : CellGrid) = _
  rw [List.nil_append, hmapdec]

/-- Witness for C1 on a concrete 2 x 2 grid. -/
theorem claim_C1_witness :
    charStreamToGrid
        (readHexFromText (encodeRows ['a'] 2
          [[Cell.transparent, Cell.palette 1], [Cell.palette 15, Cell.transparent]])).1
        (readHexFromText (encodeRows ['a'] 2
          [[Cell.transparent, Cell.palette 1], [Cell.palette 15, Cell.transparent]])).2.1
      = .ok ⟨2, 2, [Cell.transparent, Cell.palette 1, Cell.palette 15,
          Cell.transparent]⟩ :=
  (claim_C1_roundtrip ['a'] 2
    [[Cell.transparent, Cell.palette 1], [Cell.palette 15, Cell.transparent]]
    (by omega) (by decide) (by decide) (by decide) (by decide)).2
